import Mathlib

/-!
Verification model for the xv6-style teaching kernel in this repository.

The definitions below are shallow embeddings of the C sources under
`src/kernel/`: physical memory and the page-table manager (`kalloc.c`,
`vm.c`), the process table (`proc.c`), system-call dispatch (`syscall.c`,
`syscall.h`) and the console line discipline (`console.c`).  Machine
integers are modelled as `Nat` with explicit reductions modulo `2 ^ 32` /
`2 ^ 64` where the C code relies on fixed-width wrap-around, and kernel
panics are modelled as `Except.error` carrying the panic message.

Physical memory is modelled at 64-bit word granularity: a page is a map
from word index (0..511) to word value.  All memory accesses performed by
the modelled code are either whole-page `memset`s or aligned 64-bit loads
and stores (page-table entries and the free-list link in the first word
of a free page), so word granularity is exact for them.  `memset(p, c,
PGSIZE)` becomes the constant page whose every word has all eight bytes
equal to `c`.
-/

/-- Modelled from the spec: page size, 4096 bytes (`riscv.h` is not under
`src/`; the spec fixes 4 KiB pages). -/
def PGSIZE : Nat := 4096

/-- Modelled from the spec: PTE valid bit (`riscv.h` is not under `src/`). -/
def PTE_V : Nat := 1

/-- Modelled from the spec: PTE readable bit. -/
def PTE_R : Nat := 2

/-- Modelled from the spec: PTE writable bit. -/
def PTE_W : Nat := 4

/-- Modelled from the spec: PTE executable bit. -/
def PTE_X : Nat := 8

/-- Modelled from the spec: PTE user-accessible bit. -/
def PTE_U : Nat := 16

/-- Modelled from the spec: one beyond the largest legal virtual address in
the 39-bit Sv39 window (9+9+9+12 bits). -/
def MAXVA : Nat := 2 ^ 38

/-- Start of RAM (`memlayout.h`). -/
def KERNBASE : Nat := 0x80000000

/-- End of physical memory used by the kernel, 128 MiB above `KERNBASE`
(`memlayout.h`). -/
def PHYSTOP : Nat := KERNBASE + 128 * 1024 * 1024

/-- Maximum number of processes (`param.h`). -/
def NPROC : Nat := 64

/-- Modelled from the spec: round an address up to a page boundary
(`riscv.h` is not under `src/`). -/
def PGROUNDUP (a : Nat) : Nat := (a + PGSIZE - 1) / PGSIZE * PGSIZE

/-- Modelled from the spec: round an address down to a page boundary. -/
def PGROUNDDOWN (a : Nat) : Nat := a / PGSIZE * PGSIZE

/-- Modelled from the spec: the 9-bit page-table index of `va` for the given
level, `(va >> (12 + 9*level)) & 0x1FF`. -/
def PX (level va : Nat) : Nat := (va >>> (12 + 9 * level)) &&& 0x1FF

/-- Modelled from the spec: pack a physical address into a PTE,
`(pa >> 12) << 10`. -/
def PA2PTE (pa : Nat) : Nat := (pa >>> 12) <<< 10

/-- Modelled from the spec: extract the physical address from a PTE,
`(pte >> 10) << 12`. -/
def PTE2PA (pte : Nat) : Nat := (pte >>> 10) <<< 12

/-- Modelled from the spec: the low ten permission/flag bits of a PTE,
`pte & 0x3FF`. -/
def PTE_FLAGS (pte : Nat) : Nat := pte &&& 0x3FF

/-- The 64-bit word whose eight bytes are all `0x05`: the fill pattern
`memset(page, 5, PGSIZE)` of `kalloc` leaves in every word of the page. -/
def FILL5 : Nat := 0x0505050505050505

/-- The 64-bit word whose eight bytes are all `0x01`: the fill pattern
`memset(page, 1, PGSIZE)` of `kernel_free_page`. -/
def FILL1 : Nat := 0x0101010101010101

/-- Physical memory and allocator state.  `pages p s` is the 64-bit word at
word index `s` of the page at physical address `p`; `head` is
`kernel_memory_allocator.free_page_list_head` (0 encodes the null pointer);
`kend` is the address of the linker symbol `kernel_binary_end`. -/
structure Machine where
  pages : Nat → Nat → Nat
  head : Nat
  kend : Nat

/-- Store the 64-bit word `v` at word index `s` of the page at `p`. -/
def Machine.setCell (m : Machine) (p s v : Nat) : Machine :=
  { m with pages := fun q t => if q = p ∧ t = s then v else m.pages q t }

/-- Overwrite the whole page at `p` with the words given by `f`
(a whole-page `memset` uses a constant `f`). -/
def Machine.setPage (m : Machine) (p : Nat) (f : Nat → Nat) : Machine :=
  { m with pages := fun q t => if q = p then f t else m.pages q t }

/-- `kalloc` (kalloc.c): pop the head of the free list, which is threaded
through the first word of each free page; fill the allocated page with the
byte pattern 5; return the null pointer (0, modelled as `none`) when the
list is empty.  The spinlock acquire/release pair protects this sequence
and is not visible in this sequential model. -/
def kalloc (m : Machine) : Option Nat × Machine :=
  if m.head = 0 then (none, m)
  else
    (some m.head,
     { pages := fun q t => if q = m.head then FILL5 else m.pages q t
       head := m.pages m.head 0
       kend := m.kend })

/-- `kernel_free_page` (kalloc.c): panics unless the page is page-aligned,
above `kernel_binary_end` and below `PHYSTOP`; fills the page with the byte
pattern 1, then pushes it on the free list by storing the old head in its
first word and making it the new head. -/
def kernel_free_page (m : Machine) (pa : Nat) : Except String Machine :=
  if pa % PGSIZE ≠ 0 ∨ pa < m.kend ∨ PHYSTOP ≤ pa then .error "kernel_free_page"
  else .ok
    { pages := fun q t => if q = pa then (if t = 0 then m.head else FILL1) else m.pages q t
      head := pa
      kend := m.kend }

/-- One level of the descent in `walk_page_table` (vm.c): read the PTE at
index `idx` of the page-table page at `tbl`.  If it is valid, descend to the
child it names.  Otherwise, when allocation is requested and `kalloc`
succeeds, zero the fresh page (`memset(page_table, 0, PGSIZE)`) and install
`PA2PTE(child) | PTE_V`; when allocation is refused or fails, report `none`
(the C code prints a diagnostic and returns 0). -/
def walkStep (m : Machine) (tbl idx : Nat) (alloc : Bool) : Option Nat × Machine :=
  let pte := m.pages tbl idx
  if pte &&& PTE_V ≠ 0 then (some (PTE2PA pte), m)
  else if ¬ alloc then (none, m)
  else
    match kalloc m with
    | (none, m1) => (none, m1)
    | (some pg, m1) =>
        let m2 := m1.setPage pg fun _ => 0
        (some pg, m2.setCell tbl idx (PA2PTE pg ||| PTE_V))

/-- `walk_page_table` (vm.c): panic when `va` is outside the Sv39 range,
then walk levels 2 and 1, and return the location (page-table page, index)
of the level-0 PTE for `va`.  Machine changes made by a level that
allocated before a later failure are kept, as in the C code. -/
def walk_page_table (m : Machine) (root va : Nat) (alloc : Bool) :
    Except String (Option (Nat × Nat) × Machine) :=
  if va ≥ MAXVA then .error "walk_page_table not in valid range"
  else
    match walkStep m root (PX 2 va) alloc with
    | (none, m1) => .ok (none, m1)
    | (some t1, m1) =>
        match walkStep m1 t1 (PX 1 va) alloc with
        | (none, m2) => .ok (none, m2)
        | (some t0, m2) => .ok (some (t0, PX 0 va), m2)

/-- The body of the mapping loop of `create_page_table_mappings` (vm.c),
with the remaining page count made explicit: the C loop runs from
`virtual_address_start` to `last_virtual_address` inclusive in `PGSIZE`
steps, i.e. `total_mapping_size / PGSIZE` times (the size is a non-zero
multiple of `PGSIZE` at this point).  Each iteration walks with
allocation, returns -1 if the walk could not allocate, panics if the leaf
is already valid, and installs `PA2PTE(pa) | perm | PTE_V`. -/
def mapLoop (root perm : Nat) :
    Machine → Nat → Nat → Nat → Except String (Int × Machine)
  | m, _, _, 0 => .ok (0, m)
  | m, va, pa, n + 1 =>
    match walk_page_table m root va true with
    | .error e => .error e
    | .ok (none, m1) => .ok (-1, m1)
    | .ok (some loc, m1) =>
        if m1.pages loc.1 loc.2 &&& PTE_V ≠ 0 then
          .error "virtual address is already mapped"
        else
          let m2 := m1.setCell loc.1 loc.2 (PA2PTE pa ||| perm ||| PTE_V)
          if n = 0 then .ok (0, m2)
          else mapLoop root perm m2 (va + PGSIZE) (pa + PGSIZE) n

/-- `create_page_table_mappings` (vm.c): panic unless the virtual address
and the total size are page-aligned and the size is non-zero, then run the
mapping loop over `size / PGSIZE` pages. -/
def create_page_table_mappings (m : Machine) (root va size pa perm : Nat) :
    Except String (Int × Machine) :=
  if va % PGSIZE ≠ 0 then .error "create_page_table_mappings: va not aligned"
  else if size % PGSIZE ≠ 0 then .error "create_page_table_mappings: size not aligned"
  else if size = 0 then .error "create_page_table_mappings: size"
  else mapLoop root perm m va pa (size / PGSIZE)

/-- The loop of `uvmunmap` (vm.c), one iteration per page: walk without
allocating, panic if the walk fails, if the PTE is invalid, or if its
flags are exactly `PTE_V` (an interior entry); free the physical page when
`do_free` is set; clear the PTE. -/
def unmapLoop (root : Nat) (do_free : Bool) :
    Machine → Nat → Nat → Except String Machine
  | m, _, 0 => .ok m
  | m, a, k + 1 =>
    match walk_page_table m root a false with
    | .error e => .error e
    | .ok (none, _) => .error "uvmunmap: walk"
    | .ok (some loc, m1) =>
        let pte := m1.pages loc.1 loc.2
        if pte &&& PTE_V = 0 then .error "uvmunmap: not mapped"
        else if PTE_FLAGS pte = PTE_V then .error "uvmunmap: not a leaf"
        else
          match (if do_free then kernel_free_page m1 (PTE2PA pte) else .ok m1) with
          | .error e => .error e
          | .ok m2 => unmapLoop root do_free (m2.setCell loc.1 loc.2 0) (a + PGSIZE) k

/-- `uvmunmap` (vm.c): panic unless `va` is page-aligned, then remove
`npages` mappings starting at `va`, optionally freeing the physical pages. -/
def uvmunmap (m : Machine) (root va npages : Nat) (do_free : Bool) :
    Except String Machine :=
  if va % PGSIZE ≠ 0 then .error "uvmunmap: not aligned"
  else unmapLoop root do_free m va npages

/-- `uvmdealloc` (vm.c): bring the process size from `oldsz` down to
`newsz`; when a whole page boundary is crossed, unmap and free the pages in
between. -/
def uvmdealloc (m : Machine) (root oldsz newsz : Nat) :
    Except String (Nat × Machine) :=
  if newsz ≥ oldsz then .ok (oldsz, m)
  else if PGROUNDUP newsz < PGROUNDUP oldsz then
    match uvmunmap m root (PGROUNDUP newsz) ((PGROUNDUP oldsz - PGROUNDUP newsz) / PGSIZE) true with
    | .error e => .error e
    | .ok m1 => .ok (newsz, m1)
  else .ok (newsz, m)

/-- The loop of `uvmalloc` (vm.c), one iteration per page of the range
`[PGROUNDUP oldsz, newsz)`; the iteration count
`(newsz - PGROUNDUP oldsz + PGSIZE - 1) / PGSIZE` is passed explicitly and
matches the C loop `for(a = oldsz; a < newsz; a += PGSIZE)`.  Each
iteration allocates a data page, zeroes it, and maps it with
`PTE_R | PTE_U | xperm`; on `kalloc` failure or mapping failure everything
allocated so far is handed to `uvmdealloc` and 0 is returned. -/
def uvmallocLoop (root oldszR newsz xperm : Nat) :
    Machine → Nat → Nat → Except String (Nat × Machine)
  | m, _, 0 => .ok (newsz, m)
  | m, a, k + 1 =>
    match kalloc m with
    | (none, m1) =>
        match uvmdealloc m1 root a oldszR with
        | .error e => .error e
        | .ok (_, m2) => .ok (0, m2)
    | (some mem, m1) =>
        let m2 := m1.setPage mem fun _ => 0
        match create_page_table_mappings m2 root a PGSIZE mem (PTE_R ||| PTE_U ||| xperm) with
        | .error e => .error e
        | .ok (r, m3) =>
            if r ≠ 0 then
              match kernel_free_page m3 mem with
              | .error e => .error e
              | .ok m4 =>
                  match uvmdealloc m4 root a oldszR with
                  | .error e => .error e
                  | .ok (_, m5) => .ok (0, m5)
            else uvmallocLoop root oldszR newsz xperm m3 (a + PGSIZE) k

/-- `uvmalloc` (vm.c): grow the user memory from `oldsz` to `newsz`;
returns the new size, or 0 on failure after rolling the data pages back. -/
def uvmalloc (m : Machine) (root oldsz newsz xperm : Nat) :
    Except String (Nat × Machine) :=
  if newsz < oldsz then .ok (oldsz, m)
  else
    let o := PGROUNDUP oldsz
    uvmallocLoop root o newsz xperm m o ((newsz - o + PGSIZE - 1) / PGSIZE)

/-- `growproc` (proc.c) for a positive growth request: call `uvmalloc` with
`PTE_W`; on failure return -1 and leave the recorded size `sz` unchanged;
on success record the new size and return 0.  (The shrink branch for
negative `n` calls `uvmdealloc` and is not needed by the claims.) -/
def growproc (m : Machine) (root sz ngrow : Nat) :
    Except String (Int × Nat × Machine) :=
  match uvmalloc m root sz (sz + ngrow) PTE_W with
  | .error e => .error e
  | .ok (sz1, m1) => if sz1 = 0 then .ok (-1, sz, m1) else .ok (0, sz1, m1)

/-- `copyout` (vm.c): copy `len` bytes to user virtual address `dstva`, one
page at a time.  Each step rounds down to a page base, rejects addresses at
or above `MAXVA`, walks without allocating, and requires the leaf PTE to be
valid, user-accessible and writable; on any failure it returns -1 at once.
The byte movement of each `memmove` is recorded as an extent
`(physical start, byte count)` in the returned list; the bytes themselves
live in data pages and are outside the word-granular page-table model. -/
def copyout (m : Machine) (root : Nat) : Nat → Nat → Except String (Int × List (Nat × Nat))
  | dstva, len =>
    if len = 0 then .ok (0, [])
    else
      let va0 := PGROUNDDOWN dstva
      if va0 ≥ MAXVA then .ok (-1, [])
      else
        match walk_page_table m root va0 false with
        | .error e => .error e
        | .ok (none, _) => .ok (-1, [])
        | .ok (some loc, _) =>
            let pte := m.pages loc.1 loc.2
            if pte &&& PTE_V = 0 ∨ pte &&& PTE_U = 0 ∨ pte &&& PTE_W = 0 then
              .ok (-1, [])
            else
              let n := min (PGSIZE - (dstva - va0)) len
              match copyout m root (va0 + PGSIZE) (len - n) with
              | .error e => .error e
              | .ok (r, tr) => .ok (r, (PTE2PA pte + (dstva - va0), n) :: tr)
termination_by _ len => len
decreasing_by simp [PGROUNDDOWN, PGSIZE]; omega

/-- `walkaddr` (vm.c): translate a user virtual address to a physical
address, returning 0 when the address is at or above `MAXVA`, the walk
fails, or the leaf is not valid or not user-accessible. -/
def walkaddr (m : Machine) (root va : Nat) : Except String Nat :=
  if va ≥ MAXVA then .ok 0
  else
    match walk_page_table m root va false with
    | .error e => .error e
    | .ok (none, _) => .ok 0
    | .ok (some loc, _) =>
        let pte := m.pages loc.1 loc.2
        if pte &&& PTE_V = 0 then .ok 0
        else if pte &&& PTE_U = 0 then .ok 0
        else .ok (PTE2PA pte)

/-- `copyin` (vm.c): copy `len` bytes from user virtual address `srcva`,
one page at a time, translating each page base with `walkaddr` and failing
with -1 as soon as the translation yields 0.  The byte movement of each
`memmove` is recorded as an extent `(physical start, byte count)`. -/
def copyin (m : Machine) (root : Nat) : Nat → Nat → Except String (Int × List (Nat × Nat))
  | srcva, len =>
    if len = 0 then .ok (0, [])
    else
      let va0 := PGROUNDDOWN srcva
      match walkaddr m root va0 with
      | .error e => .error e
      | .ok pa0 =>
          if pa0 = 0 then .ok (-1, [])
          else
            let n := min (PGSIZE - (srcva - va0)) len
            match copyin m root (va0 + PGSIZE) (len - n) with
            | .error e => .error e
            | .ok (r, tr) => .ok (r, (pa0 + (srcva - va0), n) :: tr)
termination_by _ len => len
decreasing_by simp [PGROUNDDOWN, PGSIZE]; omega

/-- A two-page free list for exercising `kalloc`: the head page at
0x80200000 links to 0x80201000, which ends the list. -/
def kallocDemoM : Machine :=
  { pages := fun p s => if p = 0x80200000 ∧ s = 0 then 0x80201000 else 0
    head := 0x80200000
    kend := 0x80200000 }

/-- The level-1 page-table page the walk reaches from `root` for `va` when
the level-2 entry is valid: an observation of the machine along the path
`walk_page_table` reads. -/
def pathT1 (m : Machine) (root va : Nat) : Nat := PTE2PA (m.pages root (PX 2 va))

/-- The level-0 page-table page the walk reaches for `va` when the path is
present. -/
def pathT0 (m : Machine) (root va : Nat) : Nat :=
  PTE2PA (m.pages (pathT1 m root va) (PX 1 va))

/-- The walk for `va` finds valid entries at levels 2 and 1 without
allocating. -/
def pathPresent (m : Machine) (root va : Nat) : Prop :=
  va < MAXVA ∧
  m.pages root (PX 2 va) &&& PTE_V ≠ 0 ∧
  m.pages (pathT1 m root va) (PX 1 va) &&& PTE_V ≠ 0

/-- The level-0 PTE the walk reads for `va` along a present path. -/
def leafPTE (m : Machine) (root va : Nat) : Nat :=
  m.pages (pathT0 m root va) (PX 0 va)

instance (m : Machine) (root va : Nat) : Decidable (pathPresent m root va) := by
  unfold pathPresent; infer_instance

/-- A machine with a fully present path for virtual page 0: the root table
at 4096 points to a level-1 table at 8192, which points to a level-0 table
at 12288 whose entries are all invalid. -/
def mapDemoM : Machine :=
  { pages := fun p s =>
      if p = 4096 ∧ s = 0 then PA2PTE 8192 ||| PTE_V
      else if p = 8192 ∧ s = 0 then PA2PTE 12288 ||| PTE_V
      else 0
    head := 0
    kend := 0 }

/-- The translation checks `copyout` makes for the page based at `va0`:
the walk must find a leaf whose PTE is valid, user-accessible and
writable. -/
def copyoutPageOK (m : Machine) (root va0 : Nat) : Prop :=
  pathPresent m root va0 ∧
  leafPTE m root va0 &&& PTE_V ≠ 0 ∧
  leafPTE m root va0 &&& PTE_U ≠ 0 ∧
  leafPTE m root va0 &&& PTE_W ≠ 0

instance (m : Machine) (root va0 : Nat) : Decidable (copyoutPageOK m root va0) := by
  unfold copyoutPageOK; infer_instance

/-- The translation checks `copyin` makes through `walkaddr` for the page
based at `va0`: a present path, a valid and user-accessible leaf, and a
non-null translated physical address (`walkaddr` signals failure with 0). -/
def copyinPageOK (m : Machine) (root va0 : Nat) : Prop :=
  pathPresent m root va0 ∧
  leafPTE m root va0 &&& PTE_V ≠ 0 ∧
  leafPTE m root va0 &&& PTE_U ≠ 0 ∧
  PTE2PA (leafPTE m root va0) ≠ 0

instance (m : Machine) (root va0 : Nat) : Decidable (copyinPageOK m root va0) := by
  unfold copyinPageOK; infer_instance

/-- The number of pages a copy of `len` bytes starting at `va` touches. -/
def numPages (va len : Nat) : Nat :=
  if len = 0 then 0 else (va % PGSIZE + len + (PGSIZE - 1)) / PGSIZE

/-- A machine with one user page mapped read/write at virtual page 0:
root table 4096 → level-1 table 8192 → level-0 table 12288, whose entry 0
maps physical page 16384 with `PTE_R|PTE_W|PTE_U|PTE_V`; every other leaf
is invalid. -/
def copyDemoM : Machine :=
  { pages := fun p s =>
      if p = 4096 ∧ s = 0 then PA2PTE 8192 ||| PTE_V
      else if p = 8192 ∧ s = 0 then PA2PTE 12288 ||| PTE_V
      else if p = 12288 ∧ s = 0 then PA2PTE 16384 ||| (PTE_R ||| PTE_W ||| PTE_U ||| PTE_V)
      else 0
    head := 0
    kend := 0 }

/-- Top of the virtual address space, where the trampoline page lives
(`memlayout.h`). -/
def TRAMPOLINE : Nat := MAXVA - PGSIZE

/-- Kernel stack virtual address of process slot `p`, below the trampoline
with a guard page between stacks (`memlayout.h`). -/
def KSTACK (p : Nat) : Nat := TRAMPOLINE - (p + 1) * 2 * PGSIZE

/-- Process states (`proc.h`). -/
inductive ProcState where
  | UNUSED | USED | SLEEPING | RUNNABLE | RUNNING | ZOMBIE
deriving DecidableEq, Repr

/-- A process-table slot (`struct proc`, proc.h), with the fields the
modelled operations read or write.  `parent` is the parent back-pointer as
a slot index (`none` encodes the null pointer), `killed` is the C `int`
flag, and `xstate` the exit status. -/
structure Proc where
  state : ProcState
  chan : Nat
  killed : Nat
  xstate : Int
  pid : Nat
  parent : Option Nat
  kstack : Nat
  sz : Nat
  pagetable : Nat
  trapframe : Nat
  name : String
deriving DecidableEq, Repr

/-- The process table after boot: C zero-initialises the global `proc`
array (all pids 0, null parents, empty names), and `procinit` sets each
slot's state to UNUSED and records its kernel-stack address. -/
def procinitTable (i : Nat) : Proc :=
  { state := .UNUSED
    chan := 0
    killed := 0
    xstate := 0
    pid := 0
    parent := none
    kstack := KSTACK i
    sz := 0
    pagetable := 0
    trapframe := 0
    name := "" }

/-- The slot-field effect of `freeproc` (proc.c): clear the trapframe and
page-table pointers, size, pid, parent, name, channel, killed flag and
exit status, and mark the slot UNUSED.  (The accompanying `kfree` of the
trapframe page and `proc_freepagetable` act on the physical-memory
machine, which the claims about `freeproc` do not consult.) -/
def freeproc (p : Proc) : Proc :=
  { p with
    trapframe := 0
    pagetable := 0
    sz := 0
    pid := 0
    parent := none
    name := ""
    chan := 0
    killed := 0
    xstate := 0
    state := .UNUSED }

/-- Scan indices `i0, i0+1, ...` (at most `fuel` of them) for the first
index satisfying `p`: the shape of the `for(p = proc; p < &proc[NPROC];
p++)` loops of proc.c. -/
def scanFrom (p : Nat → Bool) : Nat → Nat → Option Nat
  | _, 0 => none
  | i, fuel + 1 => if p i then some i else scanFrom p (i + 1) fuel

/-- First slot index in `0 .. n-1` satisfying `p`. -/
def findFirstIdx (p : Nat → Bool) (n : Nat) : Option Nat := scanFrom p 0 n

/-- `kill` (proc.c): scan the table for the first slot whose pid matches;
set its killed flag and, if it was SLEEPING, make it RUNNABLE; return 0.
Return -1 when no slot matches. -/
def kill (tbl : Nat → Proc) (pid : Nat) : Int × (Nat → Proc) :=
  match findFirstIdx (fun i => decide ((tbl i).pid = pid)) NPROC with
  | some i =>
      (0, fun j => if j = i then
            { tbl i with
              killed := 1
              state := if (tbl i).state = .SLEEPING then .RUNNABLE else (tbl i).state }
          else tbl j)
  | none => (-1, tbl)

/-- `wake_up` (proc.c): for every slot other than the current process's,
if it is SLEEPING on the given channel, make it RUNNABLE.  `cur` is
`myproc()` as a slot index (`none` when called from a context with no
process). -/
def wake_up (tbl : Nat → Proc) (cur : Option Nat) (chan : Nat) : Nat → Proc :=
  fun i =>
    if i < NPROC ∧ some i ≠ cur ∧ (tbl i).state = .SLEEPING ∧ (tbl i).chan = chan
    then { tbl i with state := .RUNNABLE } else tbl i

/-- Whether any slot is a child of `caller`: the `havekids` flag computed
by the scan in `wait`. -/
def hasChild (tbl : Nat → Proc) (caller : Nat) : Bool :=
  (findFirstIdx (fun j => decide ((tbl j).parent = some caller)) NPROC).isSome

/-- The first slot (in table order) that is a ZOMBIE child of `caller`:
the slot at which the scan in `wait` returns. -/
def firstZombieChild (tbl : Nat → Proc) (caller : Nat) : Option Nat :=
  findFirstIdx (fun j => decide ((tbl j).parent = some caller ∧ (tbl j).state = .ZOMBIE)) NPROC

/-- Outcome of one pass of `wait`'s outer loop. -/
inductive WaitRes where
  | reaped (pid : Nat)
  | fail
  | block
deriving DecidableEq, Repr

/-- One pass of the outer loop of `wait(addr)` (proc.c): scan for a ZOMBIE
child; at the first one, copy its 4-byte exit status to `addr` through the
caller's page table when `addr` is non-zero (returning -1 if that copyout
fails, without freeing), otherwise free the child's slot and return its
pid.  When no child is a ZOMBIE: return -1 if there are no children at all
or the caller is killed, else sleep on the caller's slot (`block`). -/
def wait_step (m : Machine) (tbl : Nat → Proc) (caller addr : Nat) :
    Except String (WaitRes × (Nat → Proc)) :=
  match firstZombieChild tbl caller with
  | some j =>
      if addr ≠ 0 then
        match copyout m (tbl caller).pagetable addr 4 with
        | .error e => .error e
        | .ok (r, _) =>
            if r < 0 then .ok (.fail, tbl)
            else .ok (.reaped (tbl j).pid, fun i => if i = j then freeproc (tbl j) else tbl i)
      else .ok (.reaped (tbl j).pid, fun i => if i = j then freeproc (tbl j) else tbl i)
  | none =>
      if ¬ hasChild tbl caller ∨ (tbl caller).killed ≠ 0 then .ok (.fail, tbl)
      else .ok (.block, tbl)

/-- A table whose slot 2 sleeps with pid 9; all other slots are fresh. -/
def killDemoTbl : Nat → Proc := fun i =>
  if i = 2 then { procinitTable 2 with pid := 9, state := .SLEEPING, chan := 77 }
  else procinitTable i

/-- A table with two sleepers: slot 3 on channel 7 and slot 4 on
channel 8. -/
def wakeDemoTbl : Nat → Proc := fun i =>
  if i = 3 then { procinitTable 3 with state := .SLEEPING, chan := 7 }
  else if i = 4 then { procinitTable 4 with state := .SLEEPING, chan := 8 }
  else procinitTable i

/-- The trivial machine: all memory zero, empty free list. -/
def trivM : Machine := { pages := fun _ _ => 0, head := 0, kend := 0 }

/-- A table where the caller in slot 0 is killed and its child in slot 1
is a ZOMBIE with pid 42. -/
def waitDemoTbl : Nat → Proc := fun i =>
  if i = 0 then { procinitTable 0 with state := .RUNNING, pid := 7, killed := 1 }
  else if i = 1 then
    { procinitTable 1 with state := .ZOMBIE, pid := 42, parent := some 0, xstate := 5 }
  else procinitTable i

/-- System-call numbers (`syscall.h`). -/
def SYS_fork : Nat := 1

def SYS_exit : Nat := 2

def SYS_wait : Nat := 3

def SYS_pipe : Nat := 4

def SYS_read : Nat := 5

def SYS_kill : Nat := 6

def SYS_exec : Nat := 7

def SYS_fstat : Nat := 8

def SYS_chdir : Nat := 9

def SYS_dup : Nat := 10

def SYS_getpid : Nat := 11

def SYS_sbrk : Nat := 12

def SYS_sleep : Nat := 13

def SYS_uptime : Nat := 14

def SYS_open : Nat := 15

def SYS_write : Nat := 16

def SYS_mknod : Nat := 17

def SYS_unlink : Nat := 18

def SYS_link : Nat := 19

def SYS_mkdir : Nat := 20

def SYS_close : Nat := 21

/-- Which entries of the `syscalls[]` dispatch table are non-null: exactly
the indices named by the designated initialisers in syscall.c. -/
def syscallsDefined (k : Nat) : Bool :=
  k == SYS_fork || k == SYS_exit || k == SYS_wait || k == SYS_pipe || k == SYS_read ||
  k == SYS_kill || k == SYS_exec || k == SYS_fstat || k == SYS_chdir || k == SYS_dup ||
  k == SYS_getpid || k == SYS_sbrk || k == SYS_sleep || k == SYS_uptime || k == SYS_open ||
  k == SYS_write || k == SYS_mknod || k == SYS_unlink || k == SYS_link || k == SYS_mkdir ||
  k == SYS_close

/-- `NELEM(syscalls)`: the array's length is one past its largest
designated index, `SYS_close = 21`. -/
def NELEM_syscalls : Nat := 22

/-- The C conversion `int num = p->trapframe->a7` from `uint64` to 32-bit
`int`: keep the low 32 bits and interpret them in two's complement (the
gcc/RV64 semantics the kernel is built with). -/
def int32ofUInt64 (x : Nat) : Int :=
  if x % 2 ^ 32 < 2 ^ 31 then (x % 2 ^ 32 : Nat) else (x % 2 ^ 32 : Nat) - 2 ^ 32

/-- The part of the process state `syscall` reads and writes: the saved
`a0` and `a7` trapframe slots and the pid and name used by the error
message. -/
structure SyscallCtx where
  a0 : Nat
  a7 : Nat
  pid : Nat
  name : String
deriving DecidableEq, Repr

/-- `syscall` (syscall.c): read the call number from the saved `a7`
(truncated to `int`); if it is a valid index of the dispatch table, call
the handler and store its return value in the saved `a0` (the handlers are
abstracted as the map `handlers` from call number to returned `uint64`);
otherwise print pid, name and number, and set `a0` to -1 (as a `uint64`,
`2^64 - 1`).  The second component is the printed error line, if any. -/
def syscall (c : SyscallCtx) (handlers : Nat → Nat) :
    SyscallCtx × Option (Nat × String × Int) :=
  let num : Int := int32ofUInt64 c.a7
  if 0 < num ∧ num < (NELEM_syscalls : Int) ∧ syscallsDefined num.toNat
  then ({ c with a0 := handlers num.toNat }, none)
  else ({ c with a0 := 2 ^ 64 - 1 }, some (c.pid, c.name, num))

/-- Size of the console input ring (`console.c`). -/
def INPUT_BUF_SIZE : Nat := 128

/-- Console input state (`struct cons`, console.c): the ring buffer and
the free-running 32-bit read, write and edit indices (accessed modulo
`INPUT_BUF_SIZE`). -/
structure Cons where
  buf : Nat → Nat
  r : Nat
  w : Nat
  e : Nat

/-- Outcome of `console_read` in this sequential model: `done count bytes
r` is a return of `count` bytes (the listed ones) with the read index left
at `r`; `blocked` is the sleep in the empty-buffer loop (no input can
arrive in a sequential run); `interrupted` is the -1 return for a killed
process. -/
inductive ConsoleReadResult where
  | done (count : Nat) (bytes : List Nat) (r : Nat)
  | blocked
  | interrupted
deriving DecidableEq, Repr

/-- The `while(n > 0)` loop of `console_read` (console.c), recursing on the
remaining byte count `n`; `req` is `bytes_requested`, `acc` the bytes
delivered so far.  Each iteration: a killed process returns -1 from the
empty-buffer wait and an empty buffer otherwise blocks; the next character
is taken at `r % INPUT_BUF_SIZE` and `r` incremented (32-bit wrap); Ctrl-D
(4) ends the read, decrementing `r` to push it back when at least one byte
was already delivered; `either_copyout`'s success for the k-th delivered
byte is abstracted as the oracle `copyOk k` and its failure ends the read;
a newline ends the read after being delivered. -/
def consoleReadLoop (buf : Nat → Nat) (w : Nat) (killedFlag : Bool) (copyOk : Nat → Bool)
    (req : Nat) : Nat → Nat → List Nat → ConsoleReadResult
  | 0, r, acc => .done (req - 0) acc r
  | n + 1, r, acc =>
      if r = w then
        (if killedFlag then .interrupted else .blocked)
      else
        let c := buf (r % INPUT_BUF_SIZE)
        let r1 := (r + 1) % 2 ^ 32
        if c = 4 then
          (if n + 1 < req then .done (req - (n + 1)) acc ((r1 + 2 ^ 32 - 1) % 2 ^ 32)
           else .done (req - (n + 1)) acc r1)
        else
          if copyOk (req - (n + 1)) = false then .done (req - (n + 1)) acc r1
          else
            if c = 10 then .done (req - n) (acc ++ [c]) r1
            else consoleReadLoop buf w killedFlag copyOk req n r1 (acc ++ [c])

/-- `console_read` (console.c) for a request of `n` bytes. -/
def console_read (s : Cons) (killedFlag : Bool) (copyOk : Nat → Bool) (n : Nat) :
    ConsoleReadResult :=
  consoleReadLoop s.buf s.w killedFlag copyOk n n s.r []

/-- The input state of the spec's scenario: bytes `x`, `y`, Ctrl-D
buffered (indices 0,1,2), read index 0, write index 3. -/
def consDemo : Cons :=
  { buf := fun i => if i = 0 then 120 else if i = 1 then 121 else if i = 2 then 4 else 0
    r := 0
    w := 3
    e := 3 }

/-- Base address of a run of free physical pages used to exercise the
allocator and the grow path (2 MiB above `KERNBASE`, a typical location
of the first free page after the kernel image). -/
def CB : Nat := 0x80200000

/-- Physical address of the page-table root used in the grow scenarios
(inside the kernel image, distinct from every free page). -/
def ROOTA : Nat := 0x80100000

/-- The `j`-th page of the free run. -/
def chainPage (j : Nat) : Nat := CB + 4096 * j

/-- The data page `uvmalloc` obtains for its `j`-th mapped page when
growing over an empty region from the chain: iteration 0 takes
`chainPage 0` before the walk consumes `chainPage 1` and `chainPage 2`
for the two page-table levels; iteration `j ≥ 1` takes `chainPage (2+j)`. -/
def dAddr (j : Nat) : Nat := if j = 0 then chainPage 0 else chainPage (2 + j)

/-- A machine whose free list is the run `chainPage 0 .. chainPage (n-1)`
in order (each free page's first word links to the next, the last to
null), with all other memory zero and `kernel_binary_end` at the start of
the run. -/
def chainMachine (n : Nat) : Machine :=
  { pages := fun p s =>
      if CB ≤ p ∧ p < CB + 4096 * n ∧ (p - CB) % 4096 = 0 ∧ s = 0 then
        (if p + 4096 < CB + 4096 * n then p + 4096 else 0)
      else 0
    head := if n = 0 then 0 else CB
    kend := CB }

/-- The PTE `walk_page_table` installs for a fresh interior table at `t`. -/
def interiorVal (t : Nat) : Nat := PA2PTE t ||| PTE_V

/-- The leaf PTE `uvmalloc` (via `growproc`, so with `xperm = PTE_W`)
installs for a data page at `a`. -/
def leafVal (a : Nat) : Nat := PA2PTE a ||| (PTE_R ||| PTE_U ||| PTE_W) ||| PTE_V

/-- The machine state after `uvmalloc`'s iterations `0..i-1` (for
`1 ≤ i ≤ n-2`) growing an empty 2 MiB-aligned region `2^21*B ..` over
`chainMachine n`: data pages `dAddr 0 .. dAddr (i-1)` are mapped through
the freshly built interior tables at `chainPage 1` (level 1) and
`chainPage 2` (level 0); consumed data pages are zeroed; the head of the
free list stands at `chainPage (2+i)` (null when exhausted). -/
def allocState (B n i : Nat) : Machine :=
  { pages := fun p s =>
      if p = chainPage 0 then 0
      else if p = chainPage 1 then (if s = B % 512 then interiorVal (chainPage 2) else 0)
      else if p = chainPage 2 then (if s < i then leafVal (dAddr s) else 0)
      else if CB + 4096 * 3 ≤ p ∧ p < CB + 4096 * (2 + i) ∧ (p - CB) % 4096 = 0 then 0
      else if p = ROOTA then (if s = B / 512 then interiorVal (chainPage 1) else 0)
      else (chainMachine n).pages p s
    head := if 2 + i < n then chainPage (2 + i) else 0
    kend := CB }

/-- Machine after iteration 0 of the grow pops `chainPage 0` from the chain. -/
def mach1 (n : Nat) : Machine :=
  { pages := fun q t => if q = CB then FILL5 else (chainMachine n).pages q t
    head := chainPage 1
    kend := CB }

/-- Machine after the walk of iteration 0 allocated the level-1 table. -/
def machW1 (n B : Nat) : Machine :=
  (({ pages := fun q t =>
        if q = chainPage 1 then FILL5 else ((mach1 n).setPage CB (fun _ => 0)).pages q t
      head := chainPage 2
      kend := CB } : Machine).setPage (chainPage 1) (fun _ => 0)).setCell ROOTA (B / 512)
    (PA2PTE (chainPage 1) ||| PTE_V)

/-- Machine after the walk of iteration 0 also allocated the level-0 table. -/
def machW2 (n B : Nat) : Machine :=
  (({ pages := fun q t => if q = chainPage 2 then FILL5 else (machW1 n B).pages q t
      head := if 3 < n then chainPage 3 else 0
      kend := CB } : Machine).setPage (chainPage 2) (fun _ => 0)).setCell (chainPage 1) (B % 512)
    (PA2PTE (chainPage 2) ||| PTE_V)

/-- Machine after iteration `i ≥ 1` of the grow pops `chainPage (2+i)`. -/
def machI1 (B n i : Nat) : Machine :=
  { pages := fun q t => if q = chainPage (2 + i) then FILL5 else (allocState B n i).pages q t
    head := if 3 + i < n then chainPage (3 + i) else 0
    kend := CB }

/-- The machine after `uvmdealloc` (inside the failed grow over `chainMachine n`)
has freed the first `j` data pages again: freed data pages carry the fill
pattern 1 and the free-list link in their first word, the level-0 leaf
entries below `j` are cleared, and both page-table pages stay allocated with
their interior entries intact. -/
def unmapState (B n j : Nat) : Machine :=
  { pages := fun p s =>
      if p = chainPage 0 then (if 1 ≤ j then (if s = 0 then 0 else FILL1) else 0)
      else if p = chainPage 1 then (if s = B % 512 then interiorVal (chainPage 2) else 0)
      else if p = chainPage 2 then (if j ≤ s ∧ s < n - 2 then leafVal (dAddr s) else 0)
      else if chainPage 3 ≤ p ∧ p < chainPage (2 + j) ∧ (p - CB) % 4096 = 0 then
        (if s = 0 then (if p = chainPage 3 then chainPage 0 else p - 4096) else FILL1)
      else if chainPage 3 ≤ p ∧ p < chainPage n ∧ (p - CB) % 4096 = 0 then 0
      else if p = ROOTA then (if s = B / 512 then interiorVal (chainPage 1) else 0)
      else (chainMachine n).pages p s
    head := if j = 0 then 0 else dAddr (j - 1)
    kend := CB }

/-- The free list of a machine, followed `t` links deep: element 0 is the
head, element `t+1` is the link stored in the first word of element `t`. -/
def nthFree (m : Machine) : Nat → Nat
  | 0 => m.head
  | t + 1 => m.pages (nthFree m t) 0

theorem lor_disjoint (i a b : Nat) (h : b < 2 ^ i) :
    (2 ^ i * a) ||| b = 2 ^ i * a + b := by
  apply Nat.eq_of_testBit_eq
  intro k
  rw [Nat.testBit_lor]
  rcases Nat.lt_or_ge k i with hk | hk
  · have h1 : (2 ^ i * a + b).testBit k = b.testBit k := by
      rw [Nat.testBit_mul_pow_two_add a h k, if_pos hk]
    have h2 : (2 ^ i * a).testBit k = false := by
      have := Nat.testBit_mul_pow_two_add a (Nat.pos_pow_of_pos i (by norm_num) : 0 < 2 ^ i) k
      rw [Nat.add_zero] at this
      rw [this, if_pos hk]
      exact Nat.zero_testBit k
    rw [h1, h2, Bool.false_or]
  · have h1 : (2 ^ i * a + b).testBit k = a.testBit (k - i) := by
      rw [Nat.testBit_mul_pow_two_add a h k, if_neg (by omega)]
    have h2 : (2 ^ i * a).testBit k = a.testBit (k - i) := by
      have := Nat.testBit_mul_pow_two_add a (Nat.pos_pow_of_pos i (by norm_num) : 0 < 2 ^ i) k
      rw [Nat.add_zero] at this
      rw [this, if_neg (by omega)]
    have h3 : b.testBit k = false :=
      Nat.testBit_lt_two_pow (Nat.lt_of_lt_of_le h (Nat.pow_le_pow_right (by norm_num) hk))
    rw [h1, h2, h3, Bool.or_false]

theorem and_pow_decomp (i x : Nat) :
    x &&& 2 ^ i = if x / 2 ^ i % 2 = 1 then 2 ^ i else 0 := by
  rw [Nat.and_two_pow, Nat.testBit_to_div_mod]
  by_cases h : x / 2 ^ i % 2 = 1 <;> simp [h]

theorem PA2PTE_eq (pa : Nat) : PA2PTE pa = pa / 4096 * 1024 := by
  simp [PA2PTE, Nat.shiftRight_eq_div_pow, Nat.shiftLeft_eq]

theorem PTE2PA_eq (pte : Nat) : PTE2PA pte = pte / 1024 * 4096 := by
  simp [PTE2PA, Nat.shiftRight_eq_div_pow, Nat.shiftLeft_eq]

theorem PTE_FLAGS_eq (pte : Nat) : PTE_FLAGS pte = pte % 1024 := by
  show pte &&& 0x3FF = pte % 1024
  have h : (0x3FF : Nat) = 2 ^ 10 - 1 := by norm_num
  rw [h, Nat.and_pow_two_sub_one_eq_mod]

theorem PX_eq (l va : Nat) : PX l va = va / 2 ^ (12 + 9 * l) % 512 := by
  show (va >>> (12 + 9 * l)) &&& 0x1FF = va / 2 ^ (12 + 9 * l) % 512
  have h : (0x1FF : Nat) = 2 ^ 9 - 1 := by norm_num
  rw [h, Nat.and_pow_two_sub_one_eq_mod, Nat.shiftRight_eq_div_pow]

theorem pte_build (pa f : Nat) (hf : f < 1024) :
    PA2PTE pa ||| f = pa / 4096 * 1024 + f := by
  rw [PA2PTE_eq]
  have h1 : pa / 4096 * 1024 = 2 ^ 10 * (pa / 4096) := by ring
  rw [h1, lor_disjoint 10 (pa / 4096) f (by norm_num at hf ⊢; omega)]

theorem and_PTE_V_eq (x : Nat) : x &&& PTE_V = x % 2 := by
  simp [PTE_V, Nat.and_one_is_mod]

theorem and_PTE_W_eq (x : Nat) : x &&& PTE_W = if x / 4 % 2 = 1 then 4 else 0 := by
  have h : (PTE_W : Nat) = 2 ^ 2 := by norm_num [PTE_W]
  rw [h, and_pow_decomp]
  norm_num

theorem and_PTE_U_eq (x : Nat) : x &&& PTE_U = if x / 16 % 2 = 1 then 16 else 0 := by
  have h : (PTE_U : Nat) = 2 ^ 4 := by norm_num [PTE_U]
  rw [h, and_pow_decomp]
  norm_num

/-- C7: `kalloc` returns `none` (the null pointer) exactly when the free
list is empty, i.e. when the head pointer is null; when the list is
non-empty it removes and returns the head page with every one of its 4096
bytes set to the pattern 0x05 (every 64-bit word of the page equals
`FILL5`, each of whose eight bytes is 5), the free-list head advances to
the next free page (the link stored in the first word of the old head),
and no other page changes. -/
theorem kalloc_returns_filled_head (m : Machine) :
    ((kalloc m).1 = none ↔ m.head = 0) ∧
    (m.head ≠ 0 →
      (kalloc m).1 = some m.head ∧
      (kalloc m).2.head = m.pages m.head 0 ∧
      (∀ s b : Nat, b < 8 → (kalloc m).2.pages m.head s / 256 ^ b % 256 = 5) ∧
      (∀ p s : Nat, p ≠ m.head → (kalloc m).2.pages p s = m.pages p s)) := by
  refine ⟨⟨fun h => ?_, fun h => by simp [kalloc, h]⟩, fun h => ?_⟩
  · by_contra hne
    simp [kalloc, hne] at h
  · refine ⟨by simp [kalloc, h], by simp [kalloc, h], fun s b hb => ?_, fun p s hp => ?_⟩
    · simp only [kalloc, if_neg h]
      simp only [if_pos rfl, FILL5]
      interval_cases b <;> norm_num
    · simp [kalloc, h, hp]

theorem kalloc_returns_filled_head_witness :
    (kalloc kallocDemoM).1 = some 0x80200000 ∧
    (kalloc kallocDemoM).2.head = 0x80201000 ∧
    (kalloc kallocDemoM).2.pages 0x80200000 17 / 256 ^ 3 % 256 = 5 := by
  have h := (kalloc_returns_filled_head kallocDemoM).2 (by decide)
  refine ⟨h.1, ?_, h.2.2.1 17 3 (by decide)⟩
  rw [h.2.1]
  decide

theorem setCell_pages (m : Machine) (p s v q t : Nat) :
    (m.setCell p s v).pages q t = if q = p ∧ t = s then v else m.pages q t := rfl

theorem setCell_head (m : Machine) (p s v : Nat) : (m.setCell p s v).head = m.head := rfl

theorem setCell_kend (m : Machine) (p s v : Nat) : (m.setCell p s v).kend = m.kend := rfl

theorem setPage_pages (m : Machine) (p : Nat) (f : Nat → Nat) (q t : Nat) :
    (m.setPage p f).pages q t = if q = p then f t else m.pages q t := rfl

theorem walkStep_present (m : Machine) (tbl idx : Nat) (alloc : Bool)
    (h : m.pages tbl idx &&& PTE_V ≠ 0) :
    walkStep m tbl idx alloc = (some (PTE2PA (m.pages tbl idx)), m) := by
  simp only [walkStep, if_pos h]

theorem walk_present (m : Machine) (root va : Nat) (alloc : Bool)
    (h : pathPresent m root va) :
    walk_page_table m root va alloc = .ok (some (pathT0 m root va, PX 0 va), m) := by
  obtain ⟨hva, h2, h1⟩ := h
  have e1 : walkStep m root (PX 2 va) alloc = (some (pathT1 m root va), m) :=
    walkStep_present m root (PX 2 va) alloc h2
  have e2 : walkStep m (pathT1 m root va) (PX 1 va) alloc = (some (pathT0 m root va), m) :=
    walkStep_present m (pathT1 m root va) (PX 1 va) alloc h1
  simp only [walk_page_table, if_neg (show ¬ va ≥ MAXVA by omega), e1, e2]

theorem mapLoop_cons (m : Machine) (root va pa perm n : Nat)
    (h0 : pathPresent m root va)
    (hleaf0 : leafPTE m root va &&& PTE_V = 0) :
    mapLoop root perm m va pa (n + 1) =
      (if n = 0 then .ok (0, m.setCell (pathT0 m root va) (PX 0 va) (PA2PTE pa ||| perm ||| PTE_V))
       else mapLoop root perm (m.setCell (pathT0 m root va) (PX 0 va) (PA2PTE pa ||| perm ||| PTE_V))
              (va + PGSIZE) (pa + PGSIZE) n) := by
  have hne : ¬(m.pages (pathT0 m root va) (PX 0 va) &&& PTE_V ≠ 0) := by
    simpa [leafPTE] using hleaf0
  simp only [mapLoop, walk_present m root va true h0, hne, if_false]

theorem mapLoop_success (n : Nat) (m : Machine) (root va pa perm : Nat)
    (hpath : ∀ k < n, pathPresent m root (va + PGSIZE * k))
    (hinv : ∀ k < n, leafPTE m root (va + PGSIZE * k) &&& PTE_V = 0)
    (hdist : ∀ j k, j < n → k < n → j ≠ k →
      (pathT0 m root (va + PGSIZE * j), PX 0 (va + PGSIZE * j)) ≠
      (pathT0 m root (va + PGSIZE * k), PX 0 (va + PGSIZE * k)))
    (hsep : ∀ j k, j < n → k < n →
      pathT0 m root (va + PGSIZE * j) ≠ root ∧
      pathT0 m root (va + PGSIZE * j) ≠ pathT1 m root (va + PGSIZE * k)) :
    ∃ m', mapLoop root perm m va pa n = .ok (0, m') ∧
      (∀ k < n, m'.pages (pathT0 m root (va + PGSIZE * k)) (PX 0 (va + PGSIZE * k)) =
        PA2PTE (pa + PGSIZE * k) ||| perm ||| PTE_V) ∧
      (∀ p s, (∀ k < n, ¬(p = pathT0 m root (va + PGSIZE * k) ∧ s = PX 0 (va + PGSIZE * k))) →
        m'.pages p s = m.pages p s) ∧
      m'.head = m.head ∧ m'.kend = m.kend := by
  induction n generalizing m va pa with
  | zero =>
      exact ⟨m, rfl, fun k hk => absurd hk (Nat.not_lt_zero k), fun p s _ => rfl, rfl, rfl⟩
  | succ n ih =>
      have hva0 : va + PGSIZE * 0 = va := by ring
      have hpa0 : pa + PGSIZE * 0 = pa := by ring
      have h0 : pathPresent m root va := by have := hpath 0 (Nat.succ_pos n); rwa [hva0] at this
      have hleaf0 : leafPTE m root va &&& PTE_V = 0 := by
        have := hinv 0 (Nat.succ_pos n); rwa [hva0] at this
      have hroot0 : pathT0 m root va ≠ root := by
        have := (hsep 0 0 (Nat.succ_pos n) (Nat.succ_pos n)).1; rwa [hva0] at this
      have hnt1 : ∀ k, k < n + 1 → pathT0 m root va ≠ pathT1 m root (va + PGSIZE * k) := by
        intro k hk
        have := (hsep 0 k (Nat.succ_pos n) hk).2; rwa [hva0] at this
      set m1 := m.setCell (pathT0 m root va) (PX 0 va) (PA2PTE pa ||| perm ||| PTE_V) with hm1
      have hm1p : ∀ q t, m1.pages q t =
          if q = pathT0 m root va ∧ t = PX 0 va then PA2PTE pa ||| perm ||| PTE_V
          else m.pages q t := by intro q t; rw [hm1]; rfl
      have hstep := mapLoop_cons m root va pa perm n h0 hleaf0
      rw [← hm1] at hstep
      have hT1 : ∀ w, pathT1 m1 root w = pathT1 m root w := by
        intro w
        simp only [pathT1]
        rw [hm1p, if_neg (fun hc => hroot0 hc.1.symm)]
      have hT0 : ∀ k, k < n + 1 →
          pathT0 m1 root (va + PGSIZE * k) = pathT0 m root (va + PGSIZE * k) := by
        intro k hk
        simp only [pathT0]
        rw [hT1, hm1p, if_neg (fun hc => hnt1 k hk hc.1.symm)]
      rcases Nat.eq_zero_or_pos n with hn | hn
      · subst hn
        refine ⟨m1, by simpa using hstep, ?_, ?_, by rw [hm1]; rfl, by rw [hm1]; rfl⟩
        · intro k hk
          have hk0 : k = 0 := by omega
          subst hk0
          rw [hva0, hpa0, hm1p, if_pos ⟨rfl, rfl⟩]
        · intro p s hno
          have h0' : ¬(p = pathT0 m root va ∧ s = PX 0 va) := by
            have := hno 0 (by omega); rwa [hva0] at this
          rw [hm1p, if_neg h0']
      · have hsh : ∀ k : Nat, va + PGSIZE + PGSIZE * k = va + PGSIZE * (k + 1) := by
          intro k; ring
        have hshp : ∀ k : Nat, pa + PGSIZE + PGSIZE * k = pa + PGSIZE * (k + 1) := by
          intro k; ring
        have hpath1 : ∀ k < n, pathPresent m1 root (va + PGSIZE + PGSIZE * k) := by
          intro k hk
          rw [hsh k]
          obtain ⟨ha, hb, hc⟩ := hpath (k + 1) (by omega)
          refine ⟨ha, ?_, ?_⟩
          · rw [hm1p, if_neg (fun hc' => hroot0 hc'.1.symm)]
            exact hb
          · rw [hT1 (va + PGSIZE * (k + 1)), hm1p,
              if_neg (fun hc' => hnt1 (k + 1) (by omega) hc'.1.symm)]
            exact hc
        have hinv1 : ∀ k < n, leafPTE m1 root (va + PGSIZE + PGSIZE * k) &&& PTE_V = 0 := by
          intro k hk
          rw [hsh k]
          have hd : ¬(pathT0 m root (va + PGSIZE * (k + 1)) = pathT0 m root va ∧
              PX 0 (va + PGSIZE * (k + 1)) = PX 0 va) := by
            rintro ⟨hp', hs'⟩
            refine hdist (k + 1) 0 (by omega) (Nat.succ_pos n) (by omega) ?_
            rw [hva0, Prod.mk.injEq]
            exact ⟨hp', hs'⟩
          simp only [leafPTE]
          rw [hT0 (k + 1) (by omega), hm1p, if_neg hd]
          simpa only [leafPTE] using hinv (k + 1) (by omega)
        have hdist1 : ∀ j k, j < n → k < n → j ≠ k →
            (pathT0 m1 root (va + PGSIZE + PGSIZE * j), PX 0 (va + PGSIZE + PGSIZE * j)) ≠
            (pathT0 m1 root (va + PGSIZE + PGSIZE * k), PX 0 (va + PGSIZE + PGSIZE * k)) := by
          intro j k hj hk hjk
          rw [hsh j, hsh k, hT0 (j + 1) (by omega), hT0 (k + 1) (by omega)]
          exact hdist (j + 1) (k + 1) (by omega) (by omega) (by omega)
        have hsep1 : ∀ j k, j < n → k < n →
            pathT0 m1 root (va + PGSIZE + PGSIZE * j) ≠ root ∧
            pathT0 m1 root (va + PGSIZE + PGSIZE * j) ≠ pathT1 m1 root (va + PGSIZE + PGSIZE * k) := by
          intro j k hj hk
          rw [hsh j, hsh k, hT0 (j + 1) (by omega), hT1]
          exact hsep (j + 1) (k + 1) (by omega) (by omega)
        obtain ⟨m', hrun, hleaves, hother, hhead, hkend⟩ :=
          ih m1 (va + PGSIZE) (pa + PGSIZE) hpath1 hinv1 hdist1 hsep1
        have hm1head : m1.head = m.head := by rw [hm1]; rfl
        have hm1kend : m1.kend = m.kend := by rw [hm1]; rfl
        refine ⟨m', ?_, ?_, ?_, by rw [hhead, hm1head], by rw [hkend, hm1kend]⟩
        · rw [hstep, if_neg (by omega)]
          exact hrun
        · intro k hk
          rcases Nat.eq_zero_or_pos k with hk0 | hkpos
          · subst hk0
            rw [hva0, hpa0]
            have hrest0 : ∀ j < n, ¬(pathT0 m root va = pathT0 m1 root (va + PGSIZE + PGSIZE * j) ∧
                PX 0 va = PX 0 (va + PGSIZE + PGSIZE * j)) := by
              intro j hj
              rw [hsh j, hT0 (j + 1) (by omega)]
              rintro ⟨hp', hs'⟩
              refine hdist 0 (j + 1) (by omega) (by omega) (by omega) ?_
              rw [hva0, Prod.mk.injEq]
              exact ⟨hp', hs'⟩
            rw [hother _ _ hrest0, hm1p, if_pos ⟨rfl, rfl⟩]
          · obtain ⟨k', rfl⟩ : ∃ k', k = k' + 1 := ⟨k - 1, by omega⟩
            have hres := hleaves k' (by omega)
            rw [hsh k', hT0 (k' + 1) hk, hshp k'] at hres
            exact hres
        · intro p s hno
          have h0' : ¬(p = pathT0 m root va ∧ s = PX 0 va) := by
            have := hno 0 (by omega); rwa [hva0] at this
          have hrest : ∀ k < n, ¬(p = pathT0 m1 root (va + PGSIZE + PGSIZE * k) ∧
              s = PX 0 (va + PGSIZE + PGSIZE * k)) := by
            intro j hj
            rw [hsh j, hT0 (j + 1) (by omega)]
            exact hno (j + 1) (by omega)
          rw [hother p s hrest, hm1p, if_neg h0']

/-- C1 counterexample: the physical address is not required to be
page-aligned.  Mapping one page at `va = 0` to the unaligned physical
address 5 raises no error and returns 0; only the low bits of `pa` are
silently dropped by the PTE encoding.  This refutes the part of the claim
that says violating page alignment of the physical address is detected. -/
theorem create_page_table_mappings_pa_alignment_unchecked :
    (5 : Nat) % PGSIZE ≠ 0 ∧
    ((create_page_table_mappings mapDemoM 4096 0 4096 5 PTE_W).map Prod.fst).toOption =
      some 0 := by
  constructor
  · decide
  · decide

/-- C1 (amended): the mapping operation requires the virtual address and
the total size to be page-aligned, panicking when either is violated; it
panics when installing into a leaf slot that is already valid; and under
these preconditions (present, pairwise-distinct, non-aliased leaf slots) it
reaches no misalignment or remapping error and installs all the mappings.
The physical address is not required to be page-aligned: no check exists
for it, and the success clause holds for arbitrary, possibly unaligned
`pa`. -/
theorem create_page_table_mappings_checks (m : Machine) (root va size pa perm : Nat) :
    (va % PGSIZE ≠ 0 →
      create_page_table_mappings m root va size pa perm =
        .error "create_page_table_mappings: va not aligned") ∧
    (va % PGSIZE = 0 → size % PGSIZE ≠ 0 →
      create_page_table_mappings m root va size pa perm =
        .error "create_page_table_mappings: size not aligned") ∧
    (va % PGSIZE = 0 → size % PGSIZE = 0 → size ≠ 0 →
      pathPresent m root va → leafPTE m root va &&& PTE_V ≠ 0 →
      create_page_table_mappings m root va size pa perm =
        .error "virtual address is already mapped") ∧
    (va % PGSIZE = 0 → size % PGSIZE = 0 → size ≠ 0 →
      (∀ k < size / PGSIZE, pathPresent m root (va + PGSIZE * k)) →
      (∀ k < size / PGSIZE, leafPTE m root (va + PGSIZE * k) &&& PTE_V = 0) →
      (∀ j < size / PGSIZE, ∀ k < size / PGSIZE, j ≠ k →
        (pathT0 m root (va + PGSIZE * j), PX 0 (va + PGSIZE * j)) ≠
        (pathT0 m root (va + PGSIZE * k), PX 0 (va + PGSIZE * k))) →
      (∀ j < size / PGSIZE, ∀ k < size / PGSIZE,
        pathT0 m root (va + PGSIZE * j) ≠ root ∧
        pathT0 m root (va + PGSIZE * j) ≠ pathT1 m root (va + PGSIZE * k)) →
      ∃ m', create_page_table_mappings m root va size pa perm = .ok (0, m') ∧
        ∀ k < size / PGSIZE,
          m'.pages (pathT0 m root (va + PGSIZE * k)) (PX 0 (va + PGSIZE * k)) =
            PA2PTE (pa + PGSIZE * k) ||| perm ||| PTE_V) := by
  refine ⟨fun h => ?_, fun h1 h2 => ?_, fun h1 h2 h3 hp hv => ?_, fun h1 h2 h3 hp hi hd hs => ?_⟩
  · unfold create_page_table_mappings
    rw [if_pos h]
  · unfold create_page_table_mappings
    rw [if_neg (not_not_intro h1), if_pos h2]
  · have h4 : size / PGSIZE ≠ 0 := by
      have hge : PGSIZE ≤ size := by
        rcases Nat.lt_or_ge size PGSIZE with hlt | hge
        · exact absurd (Nat.eq_zero_of_dvd_of_lt (Nat.dvd_of_mod_eq_zero h2) hlt) h3
        · exact hge
      have h1le : 1 ≤ size / PGSIZE := (Nat.one_le_div_iff (by norm_num [PGSIZE])).mpr hge
      omega
    obtain ⟨k, hk⟩ := Nat.exists_eq_succ_of_ne_zero h4
    unfold create_page_table_mappings
    rw [if_neg (not_not_intro h1), if_neg (not_not_intro h2), if_neg h3, hk]
    simp only [mapLoop, walk_present m root va true hp]
    rw [if_pos (show m.pages (pathT0 m root va) (PX 0 va) &&& PTE_V ≠ 0 from hv)]
  · obtain ⟨m', hok, hleaves, _, _, _⟩ :=
      mapLoop_success (size / PGSIZE) m root va pa perm hp hi
        (fun j k hj hk hjk => hd j hj k hk hjk) (fun j k hj hk => hs j hj k hk)
    refine ⟨m', ?_, hleaves⟩
    unfold create_page_table_mappings
    rw [if_neg (not_not_intro h1), if_neg (not_not_intro h2), if_neg h3]
    exact hok

theorem create_page_table_mappings_checks_witness :
    create_page_table_mappings mapDemoM 4096 5 4096 7 PTE_W =
      .error "create_page_table_mappings: va not aligned" ∧
    ∃ m', create_page_table_mappings mapDemoM 4096 0 4096 7 PTE_W = .ok (0, m') ∧
      ∀ k < 4096 / PGSIZE,
        m'.pages (pathT0 mapDemoM 4096 (0 + PGSIZE * k)) (PX 0 (0 + PGSIZE * k)) =
          PA2PTE (7 + PGSIZE * k) ||| PTE_W ||| PTE_V := by
  constructor
  · exact (create_page_table_mappings_checks mapDemoM 4096 5 4096 7 PTE_W).1 (by decide)
  · exact (create_page_table_mappings_checks mapDemoM 4096 0 4096 7 PTE_W).2.2.2
      (by decide) (by decide) (by decide) (by decide) (by decide) (by decide) (by decide)

theorem walk_noalloc (m : Machine) (root va : Nat) (hva : va < MAXVA) :
    walk_page_table m root va false =
      if pathPresent m root va then .ok (some (pathT0 m root va, PX 0 va), m)
      else .ok (none, m) := by
  by_cases hp : pathPresent m root va
  · rw [if_pos hp, walk_present m root va false hp]
  · rw [if_neg hp]
    by_cases h2 : m.pages root (PX 2 va) &&& PTE_V ≠ 0
    · have h1 : ¬ (m.pages (pathT1 m root va) (PX 1 va) &&& PTE_V ≠ 0) := by
        intro h1
        exact hp ⟨hva, h2, h1⟩
      have e1 : walkStep m root (PX 2 va) false = (some (pathT1 m root va), m) :=
        walkStep_present m root (PX 2 va) false h2
      have hz : m.pages (pathT1 m root va) (PX 1 va) &&& PTE_V = 0 := not_not.mp (by simpa using h1)
      have e2 : walkStep m (pathT1 m root va) (PX 1 va) false = (none, m) := by
        simp [walkStep, hz]
      simp only [walk_page_table, if_neg (show ¬ va ≥ MAXVA by omega), e1, e2]
    · have hz : m.pages root (PX 2 va) &&& PTE_V = 0 := not_not.mp (by simpa using h2)
      have e1 : walkStep m root (PX 2 va) false = (none, m) := by
        simp [walkStep, hz]
      simp only [walk_page_table, if_neg (show ¬ va ≥ MAXVA by omega), e1]

theorem copyout_zero (m : Machine) (root dstva : Nat) :
    copyout m root dstva 0 = .ok (0, []) := by
  simp [copyout]

theorem copyout_fail (m : Machine) (root dstva len : Nat) (hlen : len ≠ 0)
    (hbad : ¬ copyoutPageOK m root (PGROUNDDOWN dstva)) :
    copyout m root dstva len = .ok (-1, []) := by
  rw [copyout]
  rw [if_neg hlen]
  by_cases hva : PGROUNDDOWN dstva ≥ MAXVA
  · rw [if_pos hva]
  · rw [if_neg hva, walk_noalloc m root (PGROUNDDOWN dstva) (by omega)]
    by_cases hp : pathPresent m root (PGROUNDDOWN dstva)
    · rw [if_pos hp]
      have hcond : leafPTE m root (PGROUNDDOWN dstva) &&& PTE_V = 0 ∨
          leafPTE m root (PGROUNDDOWN dstva) &&& PTE_U = 0 ∨
          leafPTE m root (PGROUNDDOWN dstva) &&& PTE_W = 0 := by
        by_contra hc
        push_neg at hc
        exact hbad ⟨hp, hc.1, hc.2.1, hc.2.2⟩
      simp only [leafPTE] at hcond
      simp [hcond]
    · rw [if_neg hp]

theorem copyout_step (m : Machine) (root dstva len : Nat) (hlen : len ≠ 0)
    (hok : copyoutPageOK m root (PGROUNDDOWN dstva)) :
    copyout m root dstva len =
      match copyout m root (PGROUNDDOWN dstva + PGSIZE)
          (len - min (PGSIZE - (dstva - PGROUNDDOWN dstva)) len) with
      | .error e => .error e
      | .ok (r, tr) =>
          .ok (r, (PTE2PA (leafPTE m root (PGROUNDDOWN dstva)) + (dstva - PGROUNDDOWN dstva),
            min (PGSIZE - (dstva - PGROUNDDOWN dstva)) len) :: tr) := by
  obtain ⟨hp, hv, hu, hw⟩ := hok
  rw [copyout]
  rw [if_neg hlen, if_neg (show ¬ PGROUNDDOWN dstva ≥ MAXVA by have := hp.1; omega),
    walk_noalloc m root (PGROUNDDOWN dstva) hp.1, if_pos hp]
  have hcond : ¬ (m.pages (pathT0 m root (PGROUNDDOWN dstva)) (PX 0 (PGROUNDDOWN dstva)) &&& PTE_V = 0 ∨
      m.pages (pathT0 m root (PGROUNDDOWN dstva)) (PX 0 (PGROUNDDOWN dstva)) &&& PTE_U = 0 ∨
      m.pages (pathT0 m root (PGROUNDDOWN dstva)) (PX 0 (PGROUNDDOWN dstva)) &&& PTE_W = 0) := by
    push_neg
    exact ⟨hv, hu, hw⟩
  simp only [leafPTE] at hv hu hw
  simp only [hcond, leafPTE, if_false]

theorem pgrounddown_le (x : Nat) : PGROUNDDOWN x ≤ x := by
  simp only [PGROUNDDOWN, PGSIZE]
  omega

theorem off_lt_pgsize (x : Nat) : x - PGROUNDDOWN x < PGSIZE := by
  simp only [PGROUNDDOWN, PGSIZE]
  omega

theorem pgrounddown_add_page (x : Nat) :
    PGROUNDDOWN (PGROUNDDOWN x + PGSIZE) = PGROUNDDOWN x + PGSIZE := by
  simp only [PGROUNDDOWN, PGSIZE]
  omega

theorem numPages_pos (va len : Nat) (h : len ≠ 0) : 0 < numPages va len := by
  simp only [numPages, if_neg h, PGSIZE]
  omega

theorem numPages_zero (va : Nat) : numPages va 0 = 0 := by
  simp [numPages]

theorem numPages_succ (va len : Nat) (h : len ≠ 0) :
    numPages va len =
      numPages (PGROUNDDOWN va + PGSIZE)
        (len - min (PGSIZE - (va - PGROUNDDOWN va)) len) + 1 := by
  rcases Nat.le_total (PGSIZE - (va - PGROUNDDOWN va)) len with h1 | h1
  · rw [Nat.min_eq_left h1]
    by_cases h2 : len - (PGSIZE - (va - PGROUNDDOWN va)) = 0
    · rw [h2, numPages_zero]
      simp only [numPages, if_neg h, PGROUNDDOWN, PGSIZE] at *
      omega
    · simp only [numPages, if_neg h, if_neg h2]
      simp only [PGROUNDDOWN, PGSIZE] at *
      omega
  · rw [Nat.min_eq_right h1]
    have h2 : len - len = 0 := by omega
    rw [h2, numPages_zero]
    simp only [numPages, if_neg h, PGROUNDDOWN, PGSIZE] at *
    omega

theorem copyout_spec (m : Machine) (root : Nat) : ∀ len dstva,
    ∃ r tr, copyout m root dstva len = .ok (r, tr) ∧
      (r = 0 ∨ r = -1) ∧
      (r = 0 ↔ ∀ k < numPages dstva len,
        copyoutPageOK m root (PGROUNDDOWN dstva + PGSIZE * k)) ∧
      (r = 0 → tr.length = numPages dstva len) ∧
      (r = -1 → tr.length < numPages dstva len ∧
        ¬ copyoutPageOK m root (PGROUNDDOWN dstva + PGSIZE * tr.length)) ∧
      (∀ j, (hj : j < tr.length) →
        copyoutPageOK m root (PGROUNDDOWN dstva + PGSIZE * j) ∧
        PTE2PA (leafPTE m root (PGROUNDDOWN dstva + PGSIZE * j)) ≤ (tr.get ⟨j, hj⟩).1 ∧
        (tr.get ⟨j, hj⟩).1 + (tr.get ⟨j, hj⟩).2 ≤
          PTE2PA (leafPTE m root (PGROUNDDOWN dstva + PGSIZE * j)) + PGSIZE) := by
  intro len
  induction len using Nat.strong_induction_on with
  | _ len ih =>
    intro dstva
    by_cases hlen : len = 0
    · subst hlen
      refine ⟨0, [], copyout_zero m root dstva, Or.inl rfl, ?_, ?_, ?_, ?_⟩
      · simp [numPages]
      · intro _
        simp [numPages]
      · intro hc
        exact absurd hc (by decide)
      · intro j hj
        exact absurd hj (by simp)
    · by_cases hok : copyoutPageOK m root (PGROUNDDOWN dstva)
      · -- first page passes; recurse
        set off := dstva - PGROUNDDOWN dstva with hoff
        set n := min (PGSIZE - off) len with hn
        have hnpos : 1 ≤ n := by
          have h1 : off < PGSIZE := off_lt_pgsize dstva
          have h2 : 1 ≤ len := by omega
          simp only [hn]
          omega
        have hlt : len - n < len := by omega
        obtain ⟨r, tr, hres, hdisj, hiff, hlen0, hlenm, htr⟩ := ih (len - n) hlt (PGROUNDDOWN dstva + PGSIZE)
        have hbase : PGROUNDDOWN (PGROUNDDOWN dstva + PGSIZE) = PGROUNDDOWN dstva + PGSIZE :=
          pgrounddown_add_page dstva
        have hshift : ∀ k : Nat, PGROUNDDOWN dstva + PGSIZE + PGSIZE * k =
            PGROUNDDOWN dstva + PGSIZE * (k + 1) := by intro k; ring
        have hN : numPages dstva len = numPages (PGROUNDDOWN dstva + PGSIZE) (len - n) + 1 :=
          numPages_succ dstva len hlen
        rw [hbase] at hiff hlenm htr
        refine ⟨r, (PTE2PA (leafPTE m root (PGROUNDDOWN dstva)) + off, n) :: tr, ?_, hdisj, ?_, ?_, ?_, ?_⟩
        · rw [copyout_step m root dstva len hlen hok, hres]
        · rw [hN]
          constructor
          · intro h0 k hk
            rcases Nat.eq_zero_or_pos k with hk0 | hkpos
            · subst hk0
              simpa using hok
            · obtain ⟨k', rfl⟩ := Nat.exists_eq_succ_of_ne_zero (by omega : k ≠ 0)
              have := hiff.mp h0 k' (by omega)
              rwa [hshift k'] at this
          · intro hall
            refine hiff.mpr ?_
            intro k hk
            rw [hshift k]
            exact hall (k + 1) (by omega)
        · intro h0
          simp only [List.length_cons, hlen0 h0, hN]
        · intro hm1
          obtain ⟨hl, hbad⟩ := hlenm hm1
          refine ⟨by simpa [hN] using Nat.succ_lt_succ hl, ?_⟩
          simpa [hshift tr.length] using hbad
        · intro j hj
          rcases Nat.eq_zero_or_pos j with hj0 | hjpos
          · subst hj0
            have he : PGROUNDDOWN dstva + PGSIZE * 0 = PGROUNDDOWN dstva := by ring
            rw [he]
            refine ⟨hok, by simp, ?_⟩
            simp only [List.get]
            have h1 : off < PGSIZE := off_lt_pgsize dstva
            have h2 : n ≤ PGSIZE - off := by simp only [hn]; omega
            omega
          · obtain ⟨j', rfl⟩ := Nat.exists_eq_succ_of_ne_zero (by omega : j ≠ 0)
            have hj' : j' < tr.length := by simpa using hj
            obtain ⟨hokj, hlo, hhi⟩ := htr j' hj'
            rw [hshift j'] at hokj hlo hhi
            exact ⟨hokj, by simpa using hlo, by simpa using hhi⟩
      · refine ⟨-1, [], copyout_fail m root dstva len hlen hok, Or.inr rfl, ?_, ?_, ?_, ?_⟩
        · constructor
          · intro hc
            exact absurd hc (by decide)
          · intro hall
            have := hall 0 (numPages_pos dstva len hlen)
            rw [show PGROUNDDOWN dstva + PGSIZE * 0 = PGROUNDDOWN dstva from by ring] at this
            exact absurd this hok
        · intro hc
          exact absurd hc (by decide)
        · intro _
          refine ⟨by simpa using numPages_pos dstva len hlen, ?_⟩
          simpa [show PGROUNDDOWN dstva + PGSIZE * 0 = PGROUNDDOWN dstva from by ring] using hok
        · intro j hj
          exact absurd hj (by simp)

theorem walkaddr_spec (m : Machine) (root va : Nat) :
    walkaddr m root va =
      .ok (if copyinPageOK m root va then PTE2PA (leafPTE m root va) else 0) := by
  by_cases hva : va ≥ MAXVA
  · have hnp : ¬ copyinPageOK m root va := by
      rintro ⟨⟨h1, -, -⟩, -, -, -⟩
      omega
    rw [if_neg hnp]
    simp only [walkaddr, if_pos hva]
  · by_cases hp : pathPresent m root va
    · simp only [walkaddr, if_neg hva, walk_noalloc m root va (by omega), if_pos hp]
      by_cases hv : m.pages (pathT0 m root va) (PX 0 va) &&& PTE_V = 0
      · have hnp : ¬ copyinPageOK m root va := by
          rintro ⟨-, h2, -, -⟩
          exact h2 hv
        simp [hv, hnp]
      · by_cases hu : m.pages (pathT0 m root va) (PX 0 va) &&& PTE_U = 0
        · have hnp : ¬ copyinPageOK m root va := by
            rintro ⟨-, -, h3, -⟩
            exact h3 hu
          simp [hv, hu, hnp]
        · by_cases hz : PTE2PA (leafPTE m root va) = 0
          · have hnp : ¬ copyinPageOK m root va := by
              rintro ⟨-, -, -, h4⟩
              exact h4 hz
            simp only [leafPTE] at hz
            simp [hv, hu, hnp, hz]
          · have hyp : copyinPageOK m root va := ⟨hp, hv, hu, hz⟩
            simp [hv, hu, hyp, leafPTE]
    · have hnp : ¬ copyinPageOK m root va := by
        rintro ⟨h1, -, -, -⟩
        exact hp h1
      simp only [walkaddr, if_neg hva, walk_noalloc m root va (by omega), if_neg hp, if_neg hnp]

theorem copyin_zero (m : Machine) (root srcva : Nat) :
    copyin m root srcva 0 = .ok (0, []) := by
  simp [copyin]

theorem copyin_fail (m : Machine) (root srcva len : Nat) (hlen : len ≠ 0)
    (hbad : ¬ copyinPageOK m root (PGROUNDDOWN srcva)) :
    copyin m root srcva len = .ok (-1, []) := by
  rw [copyin]
  rw [if_neg hlen]
  simp [walkaddr_spec m root (PGROUNDDOWN srcva), hbad]

theorem copyin_step (m : Machine) (root srcva len : Nat) (hlen : len ≠ 0)
    (hok : copyinPageOK m root (PGROUNDDOWN srcva)) :
    copyin m root srcva len =
      match copyin m root (PGROUNDDOWN srcva + PGSIZE)
          (len - min (PGSIZE - (srcva - PGROUNDDOWN srcva)) len) with
      | .error e => .error e
      | .ok (r, tr) =>
          .ok (r, (PTE2PA (leafPTE m root (PGROUNDDOWN srcva)) + (srcva - PGROUNDDOWN srcva),
            min (PGSIZE - (srcva - PGROUNDDOWN srcva)) len) :: tr) := by
  have hz := hok.2.2.2
  rw [copyin]
  rw [if_neg hlen]
  simp only [walkaddr_spec m root (PGROUNDDOWN srcva), if_pos hok, if_neg hz]

theorem copyin_spec (m : Machine) (root : Nat) : ∀ len srcva,
    ∃ r tr, copyin m root srcva len = .ok (r, tr) ∧
      (r = 0 ∨ r = -1) ∧
      (r = 0 ↔ ∀ k < numPages srcva len,
        copyinPageOK m root (PGROUNDDOWN srcva + PGSIZE * k)) ∧
      (r = 0 → tr.length = numPages srcva len) ∧
      (r = -1 → tr.length < numPages srcva len ∧
        ¬ copyinPageOK m root (PGROUNDDOWN srcva + PGSIZE * tr.length)) ∧
      (∀ j, (hj : j < tr.length) →
        copyinPageOK m root (PGROUNDDOWN srcva + PGSIZE * j) ∧
        PTE2PA (leafPTE m root (PGROUNDDOWN srcva + PGSIZE * j)) ≤ (tr.get ⟨j, hj⟩).1 ∧
        (tr.get ⟨j, hj⟩).1 + (tr.get ⟨j, hj⟩).2 ≤
          PTE2PA (leafPTE m root (PGROUNDDOWN srcva + PGSIZE * j)) + PGSIZE) := by
  intro len
  induction len using Nat.strong_induction_on with
  | _ len ih =>
    intro srcva
    by_cases hlen : len = 0
    · subst hlen
      refine ⟨0, [], copyin_zero m root srcva, Or.inl rfl, ?_, ?_, ?_, ?_⟩
      · simp [numPages]
      · intro _
        simp [numPages]
      · intro hc
        exact absurd hc (by decide)
      · intro j hj
        exact absurd hj (by simp)
    · by_cases hok : copyinPageOK m root (PGROUNDDOWN srcva)
      · set off := srcva - PGROUNDDOWN srcva with hoff
        set n := min (PGSIZE - off) len with hn
        have hnpos : 1 ≤ n := by
          have h1 : off < PGSIZE := off_lt_pgsize srcva
          have h2 : 1 ≤ len := by omega
          simp only [hn]
          omega
        have hlt : len - n < len := by omega
        obtain ⟨r, tr, hres, hdisj, hiff, hlen0, hlenm, htr⟩ := ih (len - n) hlt (PGROUNDDOWN srcva + PGSIZE)
        have hbase : PGROUNDDOWN (PGROUNDDOWN srcva + PGSIZE) = PGROUNDDOWN srcva + PGSIZE :=
          pgrounddown_add_page srcva
        have hshift : ∀ k : Nat, PGROUNDDOWN srcva + PGSIZE + PGSIZE * k =
            PGROUNDDOWN srcva + PGSIZE * (k + 1) := by intro k; ring
        have hN : numPages srcva len = numPages (PGROUNDDOWN srcva + PGSIZE) (len - n) + 1 :=
          numPages_succ srcva len hlen
        rw [hbase] at hiff hlenm htr
        refine ⟨r, (PTE2PA (leafPTE m root (PGROUNDDOWN srcva)) + off, n) :: tr, ?_, hdisj, ?_, ?_, ?_, ?_⟩
        · rw [copyin_step m root srcva len hlen hok, hres]
        · rw [hN]
          constructor
          · intro h0 k hk
            rcases Nat.eq_zero_or_pos k with hk0 | hkpos
            · subst hk0
              simpa using hok
            · obtain ⟨k', rfl⟩ := Nat.exists_eq_succ_of_ne_zero (by omega : k ≠ 0)
              have := hiff.mp h0 k' (by omega)
              rwa [hshift k'] at this
          · intro hall
            refine hiff.mpr ?_
            intro k hk
            rw [hshift k]
            exact hall (k + 1) (by omega)
        · intro h0
          simp only [List.length_cons, hlen0 h0, hN]
        · intro hm1
          obtain ⟨hl, hbad⟩ := hlenm hm1
          refine ⟨by simpa [hN] using Nat.succ_lt_succ hl, ?_⟩
          simpa [hshift tr.length] using hbad
        · intro j hj
          rcases Nat.eq_zero_or_pos j with hj0 | hjpos
          · subst hj0
            have he : PGROUNDDOWN srcva + PGSIZE * 0 = PGROUNDDOWN srcva := by ring
            rw [he]
            refine ⟨hok, by simp, ?_⟩
            simp only [List.get]
            have h1 : off < PGSIZE := off_lt_pgsize srcva
            have h2 : n ≤ PGSIZE - off := by simp only [hn]; omega
            omega
          · obtain ⟨j', rfl⟩ := Nat.exists_eq_succ_of_ne_zero (by omega : j ≠ 0)
            have hj' : j' < tr.length := by simpa using hj
            obtain ⟨hokj, hlo, hhi⟩ := htr j' hj'
            rw [hshift j'] at hokj hlo hhi
            exact ⟨hokj, by simpa using hlo, by simpa using hhi⟩
      · refine ⟨-1, [], copyin_fail m root srcva len hlen hok, Or.inr rfl, ?_, ?_, ?_, ?_⟩
        · constructor
          · intro hc
            exact absurd hc (by decide)
          · intro hall
            have := hall 0 (numPages_pos srcva len hlen)
            rw [show PGROUNDDOWN srcva + PGSIZE * 0 = PGROUNDDOWN srcva from by ring] at this
            exact absurd this hok
        · intro hc
          exact absurd hc (by decide)
        · intro _
          refine ⟨by simpa using numPages_pos srcva len hlen, ?_⟩
          simpa [show PGROUNDDOWN srcva + PGSIZE * 0 = PGROUNDDOWN srcva from by ring] using hok
        · intro j hj
          exact absurd hj (by simp)

/-- C2: `copyout` and `copyin` translate one page at a time.  `copyout`
returns 0 exactly when every touched page has a valid, user-accessible,
writable leaf; `copyin` returns 0 exactly when every touched page
translates through a valid, user-accessible leaf to a non-null physical
address; each returns -1 having processed exactly the pages before the
first one whose translation fails, and each recorded `memmove` extent
lies inside the physical frame of a page that passed its checks (so
`copyout` writes only through valid, user-accessible, writable leaves and
`copyin` reads only through valid, user-accessible leaves). -/
theorem copyout_copyin_page_checks (m : Machine) (root len dstva srcva : Nat) :
    (∃ r tr, copyout m root dstva len = .ok (r, tr) ∧
      (r = 0 ∨ r = -1) ∧
      (r = 0 ↔ ∀ k < numPages dstva len,
        copyoutPageOK m root (PGROUNDDOWN dstva + PGSIZE * k)) ∧
      (r = -1 → tr.length < numPages dstva len ∧
        ¬ copyoutPageOK m root (PGROUNDDOWN dstva + PGSIZE * tr.length)) ∧
      (∀ j, (hj : j < tr.length) →
        leafPTE m root (PGROUNDDOWN dstva + PGSIZE * j) &&& PTE_V ≠ 0 ∧
        leafPTE m root (PGROUNDDOWN dstva + PGSIZE * j) &&& PTE_U ≠ 0 ∧
        leafPTE m root (PGROUNDDOWN dstva + PGSIZE * j) &&& PTE_W ≠ 0 ∧
        PTE2PA (leafPTE m root (PGROUNDDOWN dstva + PGSIZE * j)) ≤ (tr.get ⟨j, hj⟩).1 ∧
        (tr.get ⟨j, hj⟩).1 + (tr.get ⟨j, hj⟩).2 ≤
          PTE2PA (leafPTE m root (PGROUNDDOWN dstva + PGSIZE * j)) + PGSIZE)) ∧
    (∃ r tr, copyin m root srcva len = .ok (r, tr) ∧
      (r = 0 ∨ r = -1) ∧
      (r = 0 ↔ ∀ k < numPages srcva len,
        copyinPageOK m root (PGROUNDDOWN srcva + PGSIZE * k)) ∧
      (r = -1 → tr.length < numPages srcva len ∧
        ¬ copyinPageOK m root (PGROUNDDOWN srcva + PGSIZE * tr.length)) ∧
      (∀ j, (hj : j < tr.length) →
        leafPTE m root (PGROUNDDOWN srcva + PGSIZE * j) &&& PTE_V ≠ 0 ∧
        leafPTE m root (PGROUNDDOWN srcva + PGSIZE * j) &&& PTE_U ≠ 0 ∧
        PTE2PA (leafPTE m root (PGROUNDDOWN srcva + PGSIZE * j)) ≤ (tr.get ⟨j, hj⟩).1 ∧
        (tr.get ⟨j, hj⟩).1 + (tr.get ⟨j, hj⟩).2 ≤
          PTE2PA (leafPTE m root (PGROUNDDOWN srcva + PGSIZE * j)) + PGSIZE)) := by
  constructor
  · obtain ⟨r, tr, hres, hdisj, hiff, _, hlenm, htr⟩ := copyout_spec m root len dstva
    refine ⟨r, tr, hres, hdisj, hiff, fun hm1 => (hlenm hm1).imp id (fun h => h), ?_⟩
    intro j hj
    obtain ⟨⟨_, hv, hu, hw⟩, hlo, hhi⟩ := htr j hj
    exact ⟨hv, hu, hw, hlo, hhi⟩
  · obtain ⟨r, tr, hres, hdisj, hiff, _, hlenm, htr⟩ := copyin_spec m root len srcva
    refine ⟨r, tr, hres, hdisj, hiff, fun hm1 => (hlenm hm1).imp id (fun h => h), ?_⟩
    intro j hj
    obtain ⟨⟨_, hv, hu, _⟩, hlo, hhi⟩ := htr j hj
    exact ⟨hv, hu, hlo, hhi⟩

theorem copyout_copyin_page_checks_witness :
    (∃ r tr, copyout copyDemoM 4096 100 8 = .ok (r, tr) ∧ r = 0) ∧
    (∃ r tr, copyin copyDemoM 4096 200 8 = .ok (r, tr) ∧ r = 0) := by
  constructor
  · obtain ⟨r, tr, hres, -, hiff, -, -⟩ := (copyout_copyin_page_checks copyDemoM 4096 8 100 200).1
    exact ⟨r, tr, hres, hiff.mpr (by decide)⟩
  · obtain ⟨r, tr, hres, -, hiff, -, -⟩ := (copyout_copyin_page_checks copyDemoM 4096 8 100 200).2
    exact ⟨r, tr, hres, hiff.mpr (by decide)⟩

theorem scanFrom_eq_some (p : Nat → Bool) :
    ∀ fuel i0 i, i0 ≤ i → i < i0 + fuel → p i = true →
      (∀ j, i0 ≤ j → j < i → p j = false) → scanFrom p i0 fuel = some i := by
  intro fuel
  induction fuel with
  | zero => intro i0 i h1 h2 _ _; omega
  | succ fuel ih =>
      intro i0 i h1 h2 hp hmin
      rcases Nat.eq_or_lt_of_le h1 with rfl | hlt
      · simp [scanFrom, hp]
      · have h0 : p i0 = false := hmin i0 (le_refl i0) hlt
        simp only [scanFrom, h0, if_false, Bool.false_eq_true]
        exact ih (i0 + 1) i (by omega) (by omega) hp (fun j hj1 hj2 => hmin j (by omega) hj2)

theorem scanFrom_eq_none (p : Nat → Bool) :
    ∀ fuel i0, (∀ j, i0 ≤ j → j < i0 + fuel → p j = false) → scanFrom p i0 fuel = none := by
  intro fuel
  induction fuel with
  | zero => intro i0 _; rfl
  | succ fuel ih =>
      intro i0 h
      have h0 : p i0 = false := h i0 (le_refl i0) (by omega)
      simp only [scanFrom, h0, if_false, Bool.false_eq_true]
      exact ih (i0 + 1) (fun j hj1 hj2 => h j (by omega) (by omega))

theorem findFirstIdx_eq_some (p : Nat → Bool) (n i : Nat) (hi : i < n) (hp : p i = true)
    (hmin : ∀ j < i, p j = false) : findFirstIdx p n = some i :=
  scanFrom_eq_some p n 0 i (Nat.zero_le i) (by omega) hp (fun j _ hj => hmin j hj)

/-- On a first pid match at slot `i`, `kill` returns 0 and updates exactly
slot `i`, setting its killed flag and promoting SLEEPING to RUNNABLE. -/
theorem kill_found (tbl : Nat → Proc) (pid i : Nat) (hi : i < NPROC)
    (hpid : (tbl i).pid = pid) (hfirst : ∀ j < i, (tbl j).pid ≠ pid) :
    kill tbl pid =
      (0, fun j => if j = i then
            { tbl i with
              killed := 1
              state := if (tbl i).state = .SLEEPING then .RUNNABLE else (tbl i).state }
          else tbl j) := by
  unfold kill
  rw [findFirstIdx_eq_some _ NPROC i hi (by simp [hpid])
    (fun j hj => by simp [hfirst j hj])]

theorem scanFrom_none_imp (p : Nat → Bool) :
    ∀ fuel i0, scanFrom p i0 fuel = none →
      ∀ j, i0 ≤ j → j < i0 + fuel → p j = false := by
  intro fuel
  induction fuel with
  | zero => intro i0 _ j h1 h2; omega
  | succ fuel ih =>
      intro i0 hnone j h1 h2
      by_cases h0 : p i0
      · simp [scanFrom, h0] at hnone
      · rcases Nat.eq_or_lt_of_le h1 with rfl | hlt
        · simpa using h0
        · simp only [scanFrom, if_neg h0] at hnone
          exact ih (i0 + 1) hnone j (by omega) (by omega)

theorem firstZombie_none_of_no_child (tbl : Nat → Proc) (caller : Nat)
    (h : hasChild tbl caller = false) : firstZombieChild tbl caller = none := by
  have hall : ∀ j, 0 ≤ j → j < 0 + NPROC →
      (fun j => decide ((tbl j).parent = some caller)) j = false := by
    have hnone : findFirstIdx (fun j => decide ((tbl j).parent = some caller)) NPROC = none := by
      unfold hasChild at h
      cases hfi : findFirstIdx (fun j => decide ((tbl j).parent = some caller)) NPROC with
      | none => rfl
      | some v => rw [hfi] at h; simp at h
    exact scanFrom_none_imp _ NPROC 0 hnone
  apply scanFrom_eq_none
  intro j h1 h2
  have := hall j h1 h2
  simp only [decide_eq_false_iff_not] at this ⊢
  rintro ⟨hpar, -⟩
  exact this hpar

/-- C4: when slot `i` is the slot `kill` finds for `pid` (the first match
in table order; pids other than 0 are unique in operation), `kill pid`
returns 0, sets that slot's killed flag, promotes it from SLEEPING to
RUNNABLE and otherwise leaves its state alone; every other field of the
slot and every other slot are unchanged. -/
theorem kill_semantics (tbl : Nat → Proc) (pid i : Nat) (hi : i < NPROC)
    (hpid : (tbl i).pid = pid) (hfirst : ∀ j < i, (tbl j).pid ≠ pid) :
    (kill tbl pid).1 = 0 ∧
    ((kill tbl pid).2 i).killed = 1 ∧
    ((tbl i).state = .SLEEPING → ((kill tbl pid).2 i).state = .RUNNABLE) ∧
    ((tbl i).state ≠ .SLEEPING → ((kill tbl pid).2 i).state = (tbl i).state) ∧
    ((kill tbl pid).2 i).chan = (tbl i).chan ∧
    ((kill tbl pid).2 i).xstate = (tbl i).xstate ∧
    ((kill tbl pid).2 i).pid = (tbl i).pid ∧
    ((kill tbl pid).2 i).parent = (tbl i).parent ∧
    ((kill tbl pid).2 i).kstack = (tbl i).kstack ∧
    ((kill tbl pid).2 i).sz = (tbl i).sz ∧
    ((kill tbl pid).2 i).pagetable = (tbl i).pagetable ∧
    ((kill tbl pid).2 i).trapframe = (tbl i).trapframe ∧
    ((kill tbl pid).2 i).name = (tbl i).name ∧
    (∀ j, j ≠ i → (kill tbl pid).2 j = tbl j) := by
  rw [kill_found tbl pid i hi hpid hfirst]
  refine ⟨rfl, by simp, fun h => by simp [h], fun h => by simp [if_neg h], by simp, by simp,
    by simp [hpid], by simp, by simp, by simp, by simp, by simp, by simp, fun j hj => by simp [hj]⟩

theorem kill_semantics_witness :
    (kill killDemoTbl 9).1 = 0 ∧
    ((kill killDemoTbl 9).2 2).killed = 1 ∧
    ((kill killDemoTbl 9).2 2).state = .RUNNABLE ∧
    ((kill killDemoTbl 9).2 2).chan = 77 ∧
    (kill killDemoTbl 9).2 5 = killDemoTbl 5 := by
  have h := kill_semantics killDemoTbl 9 2 (by decide) (by decide) (by decide)
  refine ⟨h.1, h.2.1, ?_, ?_, h.2.2.2.2.2.2.2.2.2.2.2.2.2 5 (by decide)⟩
  · rw [h.2.2.1 (by decide)]
  · rw [h.2.2.2.2.1]
    decide

/-- C5: after `wake_up(chan)`, every slot other than the current process's
that was SLEEPING on `chan` is RUNNABLE with no other field changed;
every slot that was not SLEEPING or slept on a different channel is
unchanged, and the current process's slot is unchanged. -/
theorem wake_up_semantics (tbl : Nat → Proc) (cur : Option Nat) (c : Nat) :
    (∀ i, i < NPROC → some i ≠ cur → (tbl i).state = .SLEEPING → (tbl i).chan = c →
      wake_up tbl cur c i = { tbl i with state := .RUNNABLE }) ∧
    (∀ i, (tbl i).state ≠ .SLEEPING ∨ (tbl i).chan ≠ c → wake_up tbl cur c i = tbl i) ∧
    (∀ i, some i = cur → wake_up tbl cur c i = tbl i) := by
  refine ⟨fun i h1 h2 h3 h4 => ?_, fun i h => ?_, fun i h => ?_⟩
  · simp only [wake_up]
    rw [if_pos ⟨h1, h2, h3, h4⟩]
  · simp only [wake_up]
    rw [if_neg]
    rintro ⟨-, -, hs, hc⟩
    rcases h with h | h
    · exact h hs
    · exact h hc
  · simp only [wake_up]
    rw [if_neg]
    rintro ⟨-, hne, -⟩
    exact hne h

theorem wake_up_semantics_witness :
    wake_up wakeDemoTbl (some 0) 7 3 = { wakeDemoTbl 3 with state := .RUNNABLE } ∧
    wake_up wakeDemoTbl (some 0) 7 4 = wakeDemoTbl 4 := by
  have h := wake_up_semantics wakeDemoTbl (some 0) 7
  exact ⟨h.1 3 (by decide) (by decide) (by decide) (by decide), h.2.1 4 (Or.inr (by decide))⟩

/-- C10: any slot whose pid field is 0 makes `kill 0` succeed: it returns
0 (not the not-found -1) and sets the killed flag of the first such slot.
Never-used slots have pid 0 (the global table is zero-initialised and
`procinit` touches only the state and kstack fields), and `freeproc`
resets the pid of a freed slot to 0 while marking it UNUSED. -/
theorem kill_zero_hits_unused_slot (tbl : Nat → Proc) (i : Nat) (hi : i < NPROC)
    (hp : (tbl i).pid = 0) (hfirst : ∀ j < i, (tbl j).pid ≠ 0) :
    (kill tbl 0).1 = 0 ∧
    ((kill tbl 0).2 i).killed = 1 ∧
    (∀ q : Proc, (freeproc q).pid = 0 ∧ (freeproc q).state = .UNUSED) ∧
    (∀ j : Nat, (procinitTable j).pid = 0 ∧ (procinitTable j).state = .UNUSED) := by
  rw [kill_found tbl 0 i hi hp hfirst]
  exact ⟨rfl, by simp, fun q => ⟨rfl, rfl⟩, fun j => ⟨rfl, rfl⟩⟩

theorem kill_zero_hits_unused_slot_witness :
    (kill procinitTable 0).1 = 0 ∧ ((kill procinitTable 0).2 0).killed = 1 := by
  have h := kill_zero_hits_unused_slot procinitTable 0 (by decide) (by decide) (by decide)
  exact ⟨h.1, h.2.1⟩

/-- C3 (amended): a caller with no child in the table gets -1 from `wait`;
a killed caller gets -1 only when no child is a ZOMBIE; when some child is
a ZOMBIE, `wait` returns the first such child's pid and frees its slot
(state UNUSED, pid 0) — even if the caller is killed — copying the exit
status out first when `addr` is non-zero, and returning -1 without
freeing when that copyout fails. -/
theorem wait_step_semantics (m : Machine) (tbl : Nat → Proc) (caller addr : Nat) :
    (hasChild tbl caller = false → wait_step m tbl caller addr = .ok (.fail, tbl)) ∧
    ((tbl caller).killed ≠ 0 → firstZombieChild tbl caller = none →
      wait_step m tbl caller addr = .ok (.fail, tbl)) ∧
    (∀ j, firstZombieChild tbl caller = some j → addr = 0 →
      wait_step m tbl caller addr =
        .ok (.reaped (tbl j).pid, fun i => if i = j then freeproc (tbl j) else tbl i) ∧
      (freeproc (tbl j)).state = .UNUSED ∧ (freeproc (tbl j)).pid = 0) ∧
    (∀ j r tr, firstZombieChild tbl caller = some j → addr ≠ 0 →
      copyout m (tbl caller).pagetable addr 4 = .ok (r, tr) →
      (¬ r < 0 → wait_step m tbl caller addr =
        .ok (.reaped (tbl j).pid, fun i => if i = j then freeproc (tbl j) else tbl i)) ∧
      (r < 0 → wait_step m tbl caller addr = .ok (.fail, tbl))) := by
  refine ⟨fun h => ?_, fun hk hz => ?_, fun j hj ha => ?_, fun j r tr hj ha hc => ?_⟩
  · have hz := firstZombie_none_of_no_child tbl caller h
    simp only [wait_step, hz]
    rw [if_pos (Or.inl (by simp [h]))]
  · simp only [wait_step, hz]
    rw [if_pos (Or.inr hk)]
  · subst ha
    simp only [wait_step, hj]
    exact ⟨by rw [if_neg (by simp)], rfl, rfl⟩
  · simp only [wait_step, hj, hc]
    rw [if_pos ha]
    constructor
    · intro hr
      rw [if_neg hr]
    · intro hr
      rw [if_pos hr]

/-- C3 counterexample: the claim says a caller whose killed flag is set
gets -1 from `wait`, but with a ZOMBIE child present the scan returns the
child's pid (42) before the killed check is ever reached. -/
theorem wait_reaps_zombie_despite_killed :
    (waitDemoTbl 0).killed ≠ 0 ∧
    ((wait_step trivM waitDemoTbl 0 0).map Prod.fst).toOption = some (.reaped 42) := by
  constructor
  · decide
  · decide

theorem wait_step_semantics_witness :
    wait_step trivM waitDemoTbl 0 0 =
      .ok (.reaped (waitDemoTbl 1).pid,
        fun i => if i = 1 then freeproc (waitDemoTbl 1) else waitDemoTbl i) ∧
    (freeproc (waitDemoTbl 1)).state = .UNUSED ∧
    (freeproc (waitDemoTbl 1)).pid = 0 := by
  exact (wait_step_semantics trivM waitDemoTbl 0 0).2.2.1 1 (by decide) rfl

theorem syscallsDefined_of_range (k : Nat) (h1 : 1 ≤ k) (h2 : k ≤ 21) :
    syscallsDefined k = true := by
  interval_cases k <;> rfl

/-- C6 counterexample: `a7 = 2^32 + 1` is not one of the stable numbers 1
through 21, yet the dispatcher truncates it to the `int` 1 and invokes the
`SYS_fork` handler (whose value 101 lands in `a0`), printing no error. -/
theorem syscall_truncates_a7 :
    (2 ^ 32 + 1 : Nat) > 21 ∧
    syscall { a0 := 5, a7 := 2 ^ 32 + 1, pid := 3, name := "sh" } (fun k => 100 + k) =
      ({ a0 := 101, a7 := 2 ^ 32 + 1, pid := 3, name := "sh" }, none) := by
  constructor
  · decide
  · decide

/-- C6 (amended): the dispatcher looks only at the low 32 bits of the
saved `a7`, interpreted as a signed 32-bit integer.  When `a7 mod 2^32`
is one of the stable numbers 1..21 the corresponding handler is invoked
and its return value written into the saved `a0`; for every other value
of the low 32 bits the saved `a0` is set to -1 (the `uint64` `2^64 - 1`)
and an error line with the PID, the process name and the truncated number
is printed. -/
theorem syscall_dispatch (c : SyscallCtx) (handlers : Nat → Nat) :
    (1 ≤ c.a7 % 2 ^ 32 → c.a7 % 2 ^ 32 ≤ 21 →
      syscall c handlers = ({ c with a0 := handlers (c.a7 % 2 ^ 32) }, none)) ∧
    (¬ (1 ≤ c.a7 % 2 ^ 32 ∧ c.a7 % 2 ^ 32 ≤ 21) →
      syscall c handlers =
        ({ c with a0 := 2 ^ 64 - 1 }, some (c.pid, c.name, int32ofUInt64 c.a7))) := by
  constructor
  · intro h1 h2
    have hnum : int32ofUInt64 c.a7 = ((c.a7 % 2 ^ 32 : Nat) : Int) := by
      unfold int32ofUInt64
      rw [if_pos (by omega)]
    have htn : ((c.a7 % 2 ^ 32 : Nat) : Int).toNat = c.a7 % 2 ^ 32 := Int.toNat_natCast _
    simp only [syscall, hnum, htn]
    rw [if_pos ⟨by exact_mod_cast h1, by
        have : c.a7 % 2 ^ 32 < 22 := by omega
        exact_mod_cast this,
      by exact syscallsDefined_of_range _ h1 h2⟩]
  · intro hno
    simp only [syscall]
    rw [if_neg]
    intro ⟨hpos, hlt, hdef⟩
    unfold int32ofUInt64 at hpos hlt
    by_cases hsm : c.a7 % 2 ^ 32 < 2 ^ 31
    · rw [if_pos hsm] at hpos hlt
      have h1 : 1 ≤ c.a7 % 2 ^ 32 := by exact_mod_cast hpos
      have h2 : c.a7 % 2 ^ 32 ≤ 21 := by
        have : ((c.a7 % 2 ^ 32 : Nat) : Int) < 22 := hlt
        omega
      exact hno ⟨h1, h2⟩
    · rw [if_neg hsm] at hpos
      have hbig : (2 ^ 31 : Nat) ≤ c.a7 % 2 ^ 32 := by omega
      have hlt32 : c.a7 % 2 ^ 32 < 2 ^ 32 := Nat.mod_lt _ (by norm_num)
      have : ((c.a7 % 2 ^ 32 : Nat) : Int) - 2 ^ 32 < 0 := by
        have := hlt32
        omega
      omega

theorem syscall_dispatch_witness :
    syscall { a0 := 0, a7 := 7, pid := 2, name := "sh" } (fun k => 10 * k) =
      ({ a0 := 70, a7 := 7, pid := 2, name := "sh" }, none) ∧
    syscall { a0 := 0, a7 := 22, pid := 2, name := "sh" } (fun k => 10 * k) =
      ({ a0 := 2 ^ 64 - 1, a7 := 22, pid := 2, name := "sh" },
        some (2, "sh", int32ofUInt64 22)) := by
  constructor
  · have h := (syscall_dispatch { a0 := 0, a7 := 7, pid := 2, name := "sh" }
      (fun k => 10 * k)).1 (by decide) (by decide)
    simpa using h
  · exact (syscall_dispatch { a0 := 0, a7 := 22, pid := 2, name := "sh" }
      (fun k => 10 * k)).2 (by decide)

theorem consoleReadLoop_consume (buf : Nat → Nat) (w : Nat) (killedFlag : Bool)
    (copyOk : Nat → Bool) (req : Nat) :
    ∀ k n r acc, w < 2 ^ 32 → r + k < w → k < n → n - k < req →
      (∀ j < k, buf ((r + j) % INPUT_BUF_SIZE) ≠ 4 ∧ buf ((r + j) % INPUT_BUF_SIZE) ≠ 10) →
      buf ((r + k) % INPUT_BUF_SIZE) = 4 →
      (∀ i, copyOk i = true) →
      consoleReadLoop buf w killedFlag copyOk req n r acc =
        .done (req - (n - k))
          (acc ++ (List.range k).map (fun j => buf ((r + j) % INPUT_BUF_SIZE))) (r + k) := by
  intro k
  induction k with
  | zero =>
      intro n r acc hw hrk hkn hnkr _ hcd _
      obtain ⟨n', rfl⟩ := Nat.exists_eq_succ_of_ne_zero (show n ≠ 0 by omega)
      have hrw : r ≠ w := by omega
      have hcd0 : buf (r % INPUT_BUF_SIZE) = 4 := by simpa using hcd
      simp only [consoleReadLoop, if_neg hrw, hcd0, if_pos rfl]
      rw [if_pos (by omega : n' + 1 < req)]
      have er : ((r + 1) % 2 ^ 32 + 2 ^ 32 - 1) % 2 ^ 32 = r + 0 := by omega
      rw [er]
      simp
  | succ k ih =>
      intro n r acc hw hrk hkn hnkr hchars hcd hcp
      obtain ⟨n', rfl⟩ := Nat.exists_eq_succ_of_ne_zero (show n ≠ 0 by omega)
      have hrw : r ≠ w := by omega
      have hc0 := hchars 0 (by omega)
      have hc0' : buf (r % INPUT_BUF_SIZE) ≠ 4 ∧ buf (r % INPUT_BUF_SIZE) ≠ 10 := by
        simpa using hc0
      have hr1 : (r + 1) % 2 ^ 32 = r + 1 := Nat.mod_eq_of_lt (by omega)
      simp only [consoleReadLoop, if_neg hrw, if_neg hc0'.1, hcp, if_neg hc0'.2, hr1]
      rw [if_neg (by simp)]
      have hres := ih n' (r + 1) (acc ++ [buf (r % INPUT_BUF_SIZE)]) hw (by omega) (by omega)
        (by omega)
        (fun j hj => by
          have := hchars (j + 1) (by omega)
          constructor
          · simpa [Nat.add_assoc, Nat.add_comm 1 j] using this.1
          · simpa [Nat.add_assoc, Nat.add_comm 1 j] using this.2)
        (by
          have h4 : r + 1 + k = r + (k + 1) := by ring
          rw [h4]
          exact hcd)
        hcp
      rw [hres]
      have e1 : req - (n' - k) = req - (n' + 1 - (k + 1)) := by omega
      have e2 : r + 1 + k = r + (k + 1) := by ring
      have hmap : (List.range (k + 1)).map (fun j => buf ((r + j) % INPUT_BUF_SIZE)) =
          buf ((r + 0) % INPUT_BUF_SIZE) ::
            (List.range k).map (fun j => buf ((r + (j + 1)) % INPUT_BUF_SIZE)) := by
        rw [List.range_succ_eq_map, List.map_cons, List.map_map]
        congr 1
      have hmap2 : (List.range k).map (fun j => buf ((r + 1 + j) % INPUT_BUF_SIZE)) =
          (List.range k).map (fun j => buf ((r + (j + 1)) % INPUT_BUF_SIZE)) := by
        apply List.map_congr_left
        intro a _
        have h5 : r + 1 + a = r + (a + 1) := by ring
        rw [h5]
      have e3 : acc ++ [buf (r % INPUT_BUF_SIZE)] ++
          (List.range k).map (fun j => buf ((r + 1 + j) % INPUT_BUF_SIZE)) =
          acc ++ (List.range (k + 1)).map (fun j => buf ((r + j) % INPUT_BUF_SIZE)) := by
        rw [List.append_assoc, hmap, hmap2]
        simp
      rw [e1, e2, e3]

/-- C8: if Ctrl-D (4) is the first character a `console_read` consumes,
the read returns 0 bytes (and consumes the Ctrl-D); if Ctrl-D follows
`k ≥ 1` ordinary buffered bytes (neither Ctrl-D nor newline, with all
copies to the destination succeeding) and more than `k` bytes were
requested, the read returns exactly those `k` bytes and decrements the
read index so that it points at the Ctrl-D again — so the next read sees
Ctrl-D first and returns 0 bytes. -/
theorem console_read_ctrl_d (s : Cons) (killedFlag : Bool) (copyOk : Nat → Bool) (n k : Nat) :
    (s.r ≠ s.w → s.buf (s.r % INPUT_BUF_SIZE) = 4 → 1 ≤ n →
      console_read s killedFlag copyOk n = .done 0 [] ((s.r + 1) % 2 ^ 32)) ∧
    (s.w < 2 ^ 32 → s.r + k < s.w → 1 ≤ k → k < n →
      (∀ j < k, s.buf ((s.r + j) % INPUT_BUF_SIZE) ≠ 4 ∧
        s.buf ((s.r + j) % INPUT_BUF_SIZE) ≠ 10) →
      s.buf ((s.r + k) % INPUT_BUF_SIZE) = 4 →
      (∀ i, copyOk i = true) →
      console_read s killedFlag copyOk n =
        .done k ((List.range k).map (fun j => s.buf ((s.r + j) % INPUT_BUF_SIZE)))
          (s.r + k)) := by
  constructor
  · intro hrw hcd hn
    obtain ⟨n', rfl⟩ := Nat.exists_eq_succ_of_ne_zero (show n ≠ 0 by omega)
    unfold console_read
    simp only [consoleReadLoop, if_neg hrw, hcd, if_pos rfl]
    rw [if_neg (by omega : ¬ n' + 1 < n' + 1)]
    simp
  · intro hw hrk hk1 hkn hchars hcd hcp
    unfold console_read
    have h := consoleReadLoop_consume s.buf s.w killedFlag copyOk n k n s.r [] hw hrk hkn
      (by omega) hchars hcd hcp
    rw [h]
    simp only [List.nil_append]
    congr 1
    omega

theorem console_read_ctrl_d_witness :
    console_read consDemo false (fun _ => true) 10 = .done 2 [120, 121] 2 ∧
    console_read { consDemo with r := 2 } false (fun _ => true) 10 = .done 0 [] 3 := by
  constructor
  · have h := (console_read_ctrl_d consDemo false (fun _ => true) 10 2).2
      (by decide) (by decide) (by decide) (by decide) (by decide) (by decide) (fun i => rfl)
    rw [h]
    decide
  · have h := (console_read_ctrl_d { consDemo with r := 2 } false (fun _ => true) 10 0).1
      (by decide) (by decide) (by decide)
    rw [h]
    decide

theorem interiorVal_decomp (t : Nat) : interiorVal t = t / 4096 * 1024 + 1 := by
  unfold interiorVal PTE_V
  rw [pte_build t 1 (by norm_num)]

theorem leafVal_decomp (a : Nat) : leafVal a = a / 4096 * 1024 + 23 := by
  unfold leafVal
  have h1 : (PTE_R ||| PTE_U ||| PTE_W : Nat) = 22 := by decide
  have h2 : (22 ||| PTE_V : Nat) = 23 := by decide
  rw [h1, Nat.lor_assoc, h2, pte_build a 23 (by norm_num)]

theorem interiorVal_valid (t : Nat) : interiorVal t &&& PTE_V ≠ 0 := by
  rw [interiorVal_decomp, and_PTE_V_eq]
  omega

theorem interiorVal_pa (t : Nat) (ht : t % 4096 = 0) : PTE2PA (interiorVal t) = t := by
  rw [interiorVal_decomp, PTE2PA_eq]
  omega

theorem leafVal_valid (a : Nat) : leafVal a &&& PTE_V ≠ 0 := by
  rw [leafVal_decomp, and_PTE_V_eq]
  omega

theorem leafVal_pa (a : Nat) (ha : a % 4096 = 0) : PTE2PA (leafVal a) = a := by
  rw [leafVal_decomp, PTE2PA_eq]
  omega

theorem leafVal_not_interior (a : Nat) : PTE_FLAGS (leafVal a) ≠ PTE_V := by
  rw [leafVal_decomp, PTE_FLAGS_eq, PTE_V]
  omega

theorem PX2_region (B i : Nat) (hB : B < 2 ^ 17) (hi : i < 512) :
    PX 2 (2 ^ 21 * B + 4096 * i) = B / 512 := by
  rw [PX_eq]
  norm_num
  omega

theorem PX1_region (B i : Nat) (hi : i < 512) :
    PX 1 (2 ^ 21 * B + 4096 * i) = B % 512 := by
  rw [PX_eq]
  norm_num
  omega

theorem PX0_region (B i : Nat) (hi : i < 512) :
    PX 0 (2 ^ 21 * B + 4096 * i) = i := by
  rw [PX_eq]
  norm_num
  omega

theorem kalloc_pop (m : Machine) (h : m.head ≠ 0) :
    kalloc m = (some m.head,
      { pages := fun q t => if q = m.head then FILL5 else m.pages q t
        head := m.pages m.head 0
        kend := m.kend }) := by
  unfold kalloc
  rw [if_neg h]

theorem walkStep_alloc (m : Machine) (tbl idx : Nat)
    (hinv : m.pages tbl idx &&& PTE_V = 0) (hhd : m.head ≠ 0) :
    walkStep m tbl idx true =
      (some m.head,
        (({ pages := fun q t => if q = m.head then FILL5 else m.pages q t
            head := m.pages m.head 0
            kend := m.kend } : Machine).setPage m.head (fun _ => 0)).setCell tbl idx
          (PA2PTE m.head ||| PTE_V)) := by
  simp only [walkStep, kalloc_pop m hhd, hinv]
  simp

theorem PX2_base (B : Nat) (hB : B < 2 ^ 17) : PX 2 (2 ^ 21 * B) = B / 512 := by
  have := PX2_region B 0 hB (by norm_num)
  simpa using this

theorem PX1_base (B : Nat) : PX 1 (2 ^ 21 * B) = B % 512 := by
  have := PX1_region B 0 (by norm_num)
  simpa using this

theorem PX0_base (B : Nat) : PX 0 (2 ^ 21 * B) = 0 := by
  have := PX0_region (B := B) 0 (by norm_num)
  simpa using this

theorem region_lt_maxva (B i : Nat) (hB : B < 2 ^ 17) (hi : i < 512) :
    2 ^ 21 * B + 4096 * i < MAXVA := by
  simp only [MAXVA]
  omega

theorem Machine.ext' (m₁ m₂ : Machine) (hp : m₁.pages = m₂.pages)
    (hh : m₁.head = m₂.head) (hk : m₁.kend = m₂.kend) : m₁ = m₂ := by
  cases m₁
  cases m₂
  simp_all

theorem kalloc_pop' (m : Machine) (hd lnk ke : Nat) (hhd : m.head = hd) (hd0 : hd ≠ 0)
    (hlnk : m.pages hd 0 = lnk) (hke : m.kend = ke) :
    kalloc m = (some hd,
      { pages := fun q t => if q = hd then FILL5 else m.pages q t
        head := lnk
        kend := ke }) := by
  subst hhd
  subst hlnk
  subst hke
  exact kalloc_pop m hd0

theorem walkStep_alloc2 (m : Machine) (tbl idx hd lnk ke : Nat)
    (hinv : m.pages tbl idx &&& PTE_V = 0) (hhd : m.head = hd) (hd0 : hd ≠ 0)
    (hlnk : m.pages hd 0 = lnk) (hke : m.kend = ke) :
    walkStep m tbl idx true =
      (some hd,
        (({ pages := fun q t => if q = hd then FILL5 else m.pages q t
            head := lnk
            kend := ke } : Machine).setPage hd (fun _ => 0)).setCell tbl idx
          (PA2PTE hd ||| PTE_V)) := by
  subst hhd
  subst hlnk
  subst hke
  exact walkStep_alloc m tbl idx hinv hd0

theorem mach2_read_rootslot (n B : Nat) :
    ((mach1 n).setPage CB (fun _ => 0)).pages ROOTA (B / 512) = 0 := by
  simp only [Machine.setPage, mach1]
  rw [if_neg (by decide : ¬(ROOTA = CB)), if_neg (by decide : ¬(ROOTA = CB))]
  simp only [chainMachine]
  rw [if_neg (by simp only [CB, ROOTA]; omega)]

theorem mach2_read_link1 (n B : Nat) (hn : 3 ≤ n) :
    ((mach1 n).setPage CB (fun _ => 0)).pages (chainPage 1) 0 = chainPage 2 := by
  simp only [Machine.setPage, mach1]
  rw [if_neg (by decide : ¬(chainPage 1 = CB)), if_neg (by decide : ¬(chainPage 1 = CB))]
  simp only [chainMachine]
  rw [if_pos (by simp only [chainPage, CB, and_true, true_and]; omega),
    if_pos (by simp only [chainPage, CB, and_true, true_and]; omega)]
  unfold chainPage CB
  omega

theorem iter0_step2 (n B : Nat) (hn : 3 ≤ n) :
    walkStep ((mach1 n).setPage CB (fun _ => 0)) ROOTA (B / 512) true =
      (some (chainPage 1), machW1 n B) :=
  walkStep_alloc2 _ _ _ _ _ _ (by rw [mach2_read_rootslot]; decide) rfl (by decide)
    (mach2_read_link1 n B hn) rfl

theorem machW1_read_slot1 (n B : Nat) :
    (machW1 n B).pages (chainPage 1) (B % 512) = 0 := by
  simp only [machW1, Machine.setCell, Machine.setPage]
  rw [if_neg (fun hc => absurd hc.1 (by decide : ¬(chainPage 1 = ROOTA)))]
  simp

theorem machW1_read_link2 (n B : Nat) (hn : 3 ≤ n) :
    (machW1 n B).pages (chainPage 2) 0 = (if 3 < n then chainPage 3 else 0) := by
  simp only [machW1, Machine.setCell, Machine.setPage, mach1]
  rw [if_neg (fun hc => absurd hc.1 (by decide : ¬(chainPage 2 = ROOTA))),
    if_neg (by decide : ¬(chainPage 2 = chainPage 1)),
    if_neg (by decide : ¬(chainPage 2 = chainPage 1)),
    if_neg (by decide : ¬(chainPage 2 = CB)),
    if_neg (by decide : ¬(chainPage 2 = CB))]
  simp only [chainMachine]
  rw [if_pos (by simp only [chainPage, CB, and_true, true_and]; omega)]
  simp only [chainPage, CB]
  split_ifs <;> omega

theorem iter0_step1 (n B : Nat) (hn : 3 ≤ n) :
    walkStep (machW1 n B) (chainPage 1) (B % 512) true =
      (some (chainPage 2), machW2 n B) :=
  walkStep_alloc2 _ _ _ _ _ _ (by rw [machW1_read_slot1]; decide) rfl (by decide)
    (machW1_read_link2 n B hn) rfl

theorem iter0_walk (n B : Nat) (hB : B < 2 ^ 17) (hn : 3 ≤ n) :
    walk_page_table ((mach1 n).setPage CB (fun _ => 0)) ROOTA (2 ^ 21 * B) true =
      .ok (some (chainPage 2, 0), machW2 n B) := by
  have hge : ¬ (2 ^ 21 * B ≥ MAXVA) := by simp only [MAXVA]; omega
  simp only [walk_page_table]
  rw [if_neg hge]
  simp only [PX2_base B hB, PX1_base B, PX0_base B, iter0_step2 n B hn, iter0_step1 n B hn]

theorem machW2_read_leaf (n B : Nat) :
    (machW2 n B).pages (chainPage 2) 0 = 0 := by
  simp only [machW2, Machine.setCell, Machine.setPage]
  rw [if_neg (fun hc => absurd hc.1 (by decide : ¬(chainPage 2 = chainPage 1)))]
  simp

set_option maxHeartbeats 1600000 in
theorem iter0_flat (n B : Nat) :
    (machW2 n B).setCell (chainPage 2) 0
        (PA2PTE CB ||| (PTE_R ||| PTE_U ||| PTE_W) ||| PTE_V) =
      allocState B n 1 := by
  refine Machine.ext' _ _ ?_ rfl rfl
  funext p s
  simp only [Machine.setCell, Machine.setPage, machW2, machW1, mach1, allocState,
    chainMachine, leafVal, interiorVal, dAddr, chainPage, CB, ROOTA]
  split_ifs <;> first | rfl | omega | (exfalso; omega) | (subst_vars; rfl)

theorem iter0_map (n B : Nat) (hB : B < 2 ^ 17) (hn : 3 ≤ n) :
    create_page_table_mappings ((mach1 n).setPage CB (fun _ => 0)) ROOTA (2 ^ 21 * B)
        PGSIZE CB (PTE_R ||| PTE_U ||| PTE_W) =
      .ok (0, allocState B n 1) := by
  have hA4 : (2 ^ 21 * B) % PGSIZE = 0 := by simp only [PGSIZE]; omega
  simp only [create_page_table_mappings]
  rw [if_neg (not_not_intro hA4), if_neg (by norm_num [PGSIZE]),
    if_neg (by norm_num [PGSIZE])]
  have h1 : PGSIZE / PGSIZE = 0 + 1 := by norm_num [PGSIZE]
  rw [h1]
  simp only [mapLoop, iter0_walk n B hB hn]
  rw [if_neg (not_not_intro (by rw [machW2_read_leaf]; decide))]
  simp [iter0_flat n B]

theorem uvmallocLoop_iter0 (B n oldszR newsz f : Nat) (hB : B < 2 ^ 17) (hn : 3 ≤ n) :
    uvmallocLoop ROOTA oldszR newsz PTE_W (chainMachine n) (2 ^ 21 * B) (f + 1) =
      uvmallocLoop ROOTA oldszR newsz PTE_W (allocState B n 1) (2 ^ 21 * B + PGSIZE) f := by
  have hk1 : kalloc (chainMachine n) = (some CB, mach1 n) := by
    refine kalloc_pop' _ _ _ _ ?_ (by decide) ?_ rfl
    · simp only [chainMachine]
      rw [if_neg (by omega)]
    · simp only [chainMachine]
      rw [if_pos (by simp only [CB, and_true, true_and]; omega),
        if_pos (by simp only [CB, and_true, true_and]; omega)]
      simp only [chainPage, CB]
  simp only [uvmallocLoop, hk1, iter0_map n B hB hn]
  simp

theorem allocState_kalloc (B n i : Nat) (hi1 : 1 ≤ i) (hin : 2 + i < n) :
    kalloc (allocState B n i) = (some (chainPage (2 + i)), machI1 B n i) := by
  refine kalloc_pop' _ _ _ _ ?_ (by unfold chainPage CB; omega) ?_ rfl
  · simp only [allocState]
    rw [if_pos hin]
  · simp only [allocState, chainMachine, chainPage, CB, ROOTA, and_true, true_and]
    split_ifs <;> first | rfl | omega

theorem machI2_read_root (B n i : Nat) (hi1 : 1 ≤ i) :
    ((machI1 B n i).setPage (chainPage (2 + i)) (fun _ => 0)).pages ROOTA (B / 512) =
      interiorVal (chainPage 1) := by
  simp only [Machine.setPage, machI1, allocState, chainMachine, chainPage, CB, ROOTA,
    and_true, true_and]
  split_ifs <;> first | rfl | omega

theorem machI2_read_L1 (B n i : Nat) (hi1 : 1 ≤ i) :
    ((machI1 B n i).setPage (chainPage (2 + i)) (fun _ => 0)).pages (chainPage 1) (B % 512) =
      interiorVal (chainPage 2) := by
  simp only [Machine.setPage, machI1, allocState, chainMachine, chainPage, CB, ROOTA,
    and_true, true_and]
  split_ifs <;> first | rfl | omega

theorem machI2_read_leaf (B n i : Nat) (hi1 : 1 ≤ i) :
    ((machI1 B n i).setPage (chainPage (2 + i)) (fun _ => 0)).pages (chainPage 2) i = 0 := by
  simp only [Machine.setPage, machI1, allocState, chainMachine, chainPage, CB, ROOTA,
    and_true, true_and]
  split_ifs <;> first | rfl | omega

theorem chainPage_mod (j : Nat) : chainPage j % 4096 = 0 := by
  unfold chainPage CB
  omega

theorem machI2_pathT1 (B n i : Nat) (hB : B < 2 ^ 17) (hi1 : 1 ≤ i) (hi512 : i < 512) :
    pathT1 ((machI1 B n i).setPage (chainPage (2 + i)) (fun _ => 0)) ROOTA
        (2 ^ 21 * B + 4096 * i) = chainPage 1 := by
  simp only [pathT1, PX2_region B i hB hi512, machI2_read_root B n i hi1]
  exact interiorVal_pa _ (chainPage_mod 1)

theorem machI2_pathT0 (B n i : Nat) (hB : B < 2 ^ 17) (hi1 : 1 ≤ i) (hi512 : i < 512) :
    pathT0 ((machI1 B n i).setPage (chainPage (2 + i)) (fun _ => 0)) ROOTA
        (2 ^ 21 * B + 4096 * i) = chainPage 2 := by
  simp only [pathT0, machI2_pathT1 B n i hB hi1 hi512, PX1_region B i hi512,
    machI2_read_L1 B n i hi1]
  exact interiorVal_pa _ (chainPage_mod 2)

theorem machI2_present (B n i : Nat) (hB : B < 2 ^ 17) (hi1 : 1 ≤ i) (hi512 : i < 512) :
    pathPresent ((machI1 B n i).setPage (chainPage (2 + i)) (fun _ => 0)) ROOTA
      (2 ^ 21 * B + 4096 * i) := by
  refine ⟨region_lt_maxva B i hB hi512, ?_, ?_⟩
  · rw [PX2_region B i hB hi512, machI2_read_root B n i hi1]
    exact interiorVal_valid _
  · rw [machI2_pathT1 B n i hB hi1 hi512, PX1_region B i hi512, machI2_read_L1 B n i hi1]
    exact interiorVal_valid _

theorem machI2_leaf (B n i : Nat) (hB : B < 2 ^ 17) (hi1 : 1 ≤ i) (hi512 : i < 512) :
    leafPTE ((machI1 B n i).setPage (chainPage (2 + i)) (fun _ => 0)) ROOTA
        (2 ^ 21 * B + 4096 * i) &&& PTE_V = 0 := by
  rw [leafPTE, machI2_pathT0 B n i hB hi1 hi512, PX0_region B i hi512,
    machI2_read_leaf B n i hi1]
  decide

set_option maxHeartbeats 1600000 in
set_option maxRecDepth 8192 in
theorem iter_flat (B n i : Nat) (hi1 : 1 ≤ i) :
    ((machI1 B n i).setPage (chainPage (2 + i)) (fun _ => 0)).setCell (chainPage 2) i
        (PA2PTE (chainPage (2 + i)) ||| (PTE_R ||| PTE_U ||| PTE_W) ||| PTE_V) =
      allocState B n (i + 1) := by
  refine Machine.ext' _ _ ?_ ?_ rfl
  · funext p s
    simp only [Machine.setCell, Machine.setPage, machI1, allocState, chainMachine]
    simp only [show PA2PTE (chainPage (2 + i)) ||| (PTE_R ||| PTE_U ||| PTE_W) ||| PTE_V =
      chainPage (2 + i) / 4096 * 1024 + 23 from leafVal_decomp _]
    simp only [leafVal_decomp, interiorVal_decomp, dAddr]
    simp only [chainPage, CB, ROOTA, and_true, true_and]
    split_ifs <;> first | rfl | omega
  · simp only [Machine.setCell, Machine.setPage, machI1, allocState, chainPage, CB]
    split_ifs <;> omega

theorem iter_map (B n i : Nat) (hB : B < 2 ^ 17) (hi1 : 1 ≤ i) (hi512 : i < 512) :
    create_page_table_mappings ((machI1 B n i).setPage (chainPage (2 + i)) (fun _ => 0))
        ROOTA (2 ^ 21 * B + 4096 * i) PGSIZE (chainPage (2 + i))
        (PTE_R ||| PTE_U ||| PTE_W) =
      .ok (0, allocState B n (i + 1)) := by
  have hA4 : (2 ^ 21 * B + 4096 * i) % PGSIZE = 0 := by simp only [PGSIZE]; omega
  simp only [create_page_table_mappings]
  rw [if_neg (not_not_intro hA4), if_neg (by norm_num [PGSIZE]),
    if_neg (by norm_num [PGSIZE])]
  rw [show PGSIZE / PGSIZE = 0 + 1 from by norm_num [PGSIZE]]
  rw [mapLoop_cons _ _ _ _ _ 0 (machI2_present B n i hB hi1 hi512)
    (machI2_leaf B n i hB hi1 hi512)]
  rw [if_pos rfl, machI2_pathT0 B n i hB hi1 hi512, PX0_region B i hi512,
    iter_flat B n i hi1]

theorem uvmallocLoop_iter (B n i oldszR newsz f : Nat) (hB : B < 2 ^ 17) (hi1 : 1 ≤ i)
    (hin : 2 + i < n) (hi512 : i < 512) :
    uvmallocLoop ROOTA oldszR newsz PTE_W (allocState B n i) (2 ^ 21 * B + 4096 * i) (f + 1) =
      uvmallocLoop ROOTA oldszR newsz PTE_W (allocState B n (i + 1))
        (2 ^ 21 * B + 4096 * (i + 1)) f := by
  simp only [uvmallocLoop, allocState_kalloc B n i hi1 hin, iter_map B n i hB hi1 hi512]
  rw [show 2 ^ 21 * B + 4096 * i + PGSIZE = 2 ^ 21 * B + 4096 * (i + 1) from by
    simp only [PGSIZE]; ring]
  simp

theorem uvmallocLoop_from (B n oldszR newsz : Nat) (hB : B < 2 ^ 17) (hn512 : n ≤ 513) :
    ∀ (k i f : Nat), 1 ≤ i → i + k + 2 = n →
      uvmallocLoop ROOTA oldszR newsz PTE_W (allocState B n i) (2 ^ 21 * B + 4096 * i)
          (f + k) =
        uvmallocLoop ROOTA oldszR newsz PTE_W (allocState B n (n - 2))
          (2 ^ 21 * B + 4096 * (n - 2)) f := by
  intro k
  induction k with
  | zero =>
      intro i f hi1 hik
      have : i = n - 2 := by omega
      subst this
      rfl
  | succ k ih =>
      intro i f hi1 hik
      have hin : 2 + i < n := by omega
      have hi512 : i < 512 := by omega
      have h1 : f + (k + 1) = (f + k) + 1 := by omega
      rw [h1, uvmallocLoop_iter B n i oldszR newsz (f + k) hB hi1 hin hi512]
      exact ih (i + 1) f (by omega) (by omega)

theorem alloc_unmap_junction (B n : Nat) (hn3 : 3 ≤ n) :
    allocState B n (n - 2) = unmapState B n 0 := by
  refine Machine.ext' _ _ ?_ ?_ rfl
  · funext p s
    by_cases hp0 : p = chainPage 0
    · subst hp0
      simp only [allocState, unmapState]
      simp
    · by_cases hp1 : p = chainPage 1
      · subst hp1
        simp only [allocState, unmapState,
          if_neg (by decide : ¬(chainPage 1 = chainPage 0))]
        simp
      · by_cases hp2 : p = chainPage 2
        · subst hp2
          simp only [allocState, unmapState,
            if_neg (by decide : ¬(chainPage 2 = chainPage 0)),
            if_neg (by decide : ¬(chainPage 2 = chainPage 1))]
          simp
        · by_cases hD : chainPage 3 ≤ p ∧ p < chainPage n ∧ (p - CB) % 4096 = 0
          · simp only [allocState, unmapState, if_neg hp0, if_neg hp1, if_neg hp2,
              if_pos (show CB + 4096 * 3 ≤ p ∧ p < CB + 4096 * (2 + (n - 2)) ∧
                  (p - CB) % 4096 = 0 by
                simp only [chainPage, CB] at hD ⊢
                omega),
              if_neg (show ¬(chainPage 3 ≤ p ∧ p < chainPage (2 + 0) ∧
                  (p - CB) % 4096 = 0) by
                simp only [chainPage, CB]
                omega),
              if_pos hD]
          · by_cases hR : p = ROOTA
            · subst hR
              simp only [allocState, unmapState, if_neg hp0, if_neg hp1, if_neg hp2,
                if_neg (show ¬(CB + 4096 * 3 ≤ ROOTA ∧ ROOTA < CB + 4096 * (2 + (n - 2)) ∧
                    (ROOTA - CB) % 4096 = 0) by
                  simp only [CB, ROOTA]
                  omega),
                if_neg (show ¬(chainPage 3 ≤ ROOTA ∧ ROOTA < chainPage (2 + 0) ∧
                    (ROOTA - CB) % 4096 = 0) by
                  simp only [chainPage, CB, ROOTA]
                  omega),
                if_neg (show ¬(chainPage 3 ≤ ROOTA ∧ ROOTA < chainPage n ∧
                    (ROOTA - CB) % 4096 = 0) by
                  simp only [chainPage, CB, ROOTA]
                  omega)]
            · have hD2 : ¬(CB + 4096 * 3 ≤ p ∧ p < CB + 4096 * (2 + (n - 2)) ∧
                  (p - CB) % 4096 = 0) := by
                simp only [chainPage, CB] at hD
                simp only [CB]
                omega
              have hF : ¬(chainPage 3 ≤ p ∧ p < chainPage (2 + 0) ∧
                  (p - CB) % 4096 = 0) := by
                simp only [chainPage, CB] at hD ⊢
                omega
              simp only [allocState, unmapState, if_neg hp0, if_neg hp1, if_neg hp2,
                if_neg hD2, if_neg hF, if_neg hD, if_neg hR]
  · simp only [allocState, unmapState,
      if_neg (show ¬(2 + (n - 2) < n) by omega)]
    simp

theorem dAddr_mod (j : Nat) : dAddr j % 4096 = 0 := by
  unfold dAddr chainPage CB
  split_ifs <;> omega

theorem unmapState_read_root (B n j : Nat) :
    (unmapState B n j).pages ROOTA (B / 512) = interiorVal (chainPage 1) := by
  simp only [unmapState]
  split_ifs <;> first | rfl | (simp only [chainPage, CB, ROOTA] at *; omega)

theorem unmapState_read_L1 (B n j : Nat) :
    (unmapState B n j).pages (chainPage 1) (B % 512) = interiorVal (chainPage 2) := by
  simp only [unmapState]
  split_ifs <;> first | rfl | (simp only [chainPage, CB, ROOTA] at *; omega)

theorem unmapState_read_leaf (B n j : Nat) (hj : j < n - 2) :
    (unmapState B n j).pages (chainPage 2) j = leafVal (dAddr j) := by
  simp only [unmapState]
  split_ifs <;> first | rfl | (simp only [chainPage, CB, ROOTA] at *; omega)

theorem unmap_pathT1 (B n j : Nat) (hB : B < 2 ^ 17) (hj512 : j < 512) :
    pathT1 (unmapState B n j) ROOTA (2 ^ 21 * B + 4096 * j) = chainPage 1 := by
  simp only [pathT1, PX2_region B j hB hj512, unmapState_read_root]
  exact interiorVal_pa _ (chainPage_mod 1)

theorem unmap_pathT0 (B n j : Nat) (hB : B < 2 ^ 17) (hj512 : j < 512) :
    pathT0 (unmapState B n j) ROOTA (2 ^ 21 * B + 4096 * j) = chainPage 2 := by
  simp only [pathT0, unmap_pathT1 B n j hB hj512, PX1_region B j hj512, unmapState_read_L1]
  exact interiorVal_pa _ (chainPage_mod 2)

theorem unmap_present (B n j : Nat) (hB : B < 2 ^ 17) (hj512 : j < 512) :
    pathPresent (unmapState B n j) ROOTA (2 ^ 21 * B + 4096 * j) := by
  refine ⟨region_lt_maxva B j hB hj512, ?_, ?_⟩
  · rw [PX2_region B j hB hj512, unmapState_read_root]
    exact interiorVal_valid _
  · rw [unmap_pathT1 B n j hB hj512, PX1_region B j hj512, unmapState_read_L1]
    exact interiorVal_valid _

set_option maxHeartbeats 1600000 in
set_option maxRecDepth 8192 in
theorem unmap_flat (B n j : Nat) (hj : j < n - 2) :
    ({ pages := fun q t =>
         if q = dAddr j then (if t = 0 then (unmapState B n j).head else FILL1)
         else (unmapState B n j).pages q t
       head := dAddr j
       kend := (unmapState B n j).kend } : Machine).setCell (chainPage 2) j 0 =
      unmapState B n (j + 1) := by
  refine Machine.ext' _ _ ?_ ?_ rfl
  · funext p s
    simp only [Machine.setCell]
    by_cases hp0 : p = chainPage 0
    · subst hp0
      by_cases hj0 : j = 0
      · subst hj0
        simp [unmapState, dAddr, chainPage, CB, ROOTA]
      · simp [unmapState, dAddr, chainPage, CB, ROOTA, hj0]
    · by_cases hp1 : p = chainPage 1
      · subst hp1
        rw [if_neg (show ¬(chainPage 1 = chainPage 2 ∧ s = j) from
            fun hc => absurd hc.1 (by decide)),
          if_neg (show chainPage 1 ≠ dAddr j by
            simp only [dAddr, chainPage, CB]
            split_ifs <;> omega)]
        simp [unmapState, chainPage, CB, ROOTA]
      · by_cases hp2 : p = chainPage 2
        · subst hp2
          simp [unmapState, dAddr, chainPage, CB, ROOTA]
          split_ifs <;> first | rfl | omega
        · by_cases hpd : p = dAddr j
          · have hj0 : j ≠ 0 := by
              intro h
              subst h
              exact hp0 (by simpa [dAddr] using hpd)
            have hpd2 : p = chainPage (2 + j) := by simpa [dAddr, hj0] using hpd
            subst hpd2
            have h1 : ¬(chainPage (2 + j) = chainPage 2 ∧ s = j) := by
              simp only [chainPage, CB]
              omega
            have hd : dAddr j = chainPage (2 + j) := by simp [dAddr, hj0]
            rw [if_neg h1, if_pos hd.symm]
            simp only [unmapState, if_neg hj0]
            rw [if_neg (show ¬(chainPage (2 + j) = chainPage 0) by
                simp only [chainPage, CB]; omega),
              if_neg (show ¬(chainPage (2 + j) = chainPage 1) by
                simp only [chainPage, CB]; omega),
              if_neg (show ¬(chainPage (2 + j) = chainPage 2) by
                simp only [chainPage, CB]; omega),
              if_pos (show chainPage 3 ≤ chainPage (2 + j) ∧
                  chainPage (2 + j) < chainPage (2 + (j + 1)) ∧
                  (chainPage (2 + j) - CB) % 4096 = 0 by
                simp only [chainPage, CB]; omega)]
            by_cases hs : s = 0
            · subst hs
              rw [if_pos rfl, if_pos rfl]
              simp only [dAddr, chainPage, CB]
              split_ifs <;> omega
            · rw [if_neg hs, if_neg hs]
          · have hnd : p ≠ chainPage (2 + j) := by
              intro h
              by_cases hj0 : j = 0
              · subst hj0
                exact hp2 h
              · exact hpd (by rw [h]; simp [dAddr, hj0])
            rw [if_neg (show ¬(p = chainPage 2 ∧ s = j) from fun hc => hp2 hc.1),
              if_neg hpd]
            simp only [unmapState, if_neg hp0, if_neg hp1, if_neg hp2]
            by_cases hDD : chainPage 3 ≤ p ∧ p < chainPage (2 + j) ∧ (p - CB) % 4096 = 0
            · rw [if_pos hDD,
                if_pos (show chainPage 3 ≤ p ∧ p < chainPage (2 + (j + 1)) ∧
                    (p - CB) % 4096 = 0 by
                  simp only [chainPage, CB] at hDD ⊢
                  omega)]
            · rw [if_neg hDD,
                if_neg (show ¬(chainPage 3 ≤ p ∧ p < chainPage (2 + (j + 1)) ∧
                    (p - CB) % 4096 = 0) by
                  simp only [chainPage, CB] at hDD hnd ⊢
                  omega)]
  · simp only [Machine.setCell, unmapState]
    simp [dAddr]

theorem unmapLoop_step (B n j r : Nat) (hB : B < 2 ^ 17) (hn512 : n ≤ 513) (hj : j < n - 2) :
    unmapLoop ROOTA true (unmapState B n j) (2 ^ 21 * B + 4096 * j) (r + 1) =
      unmapLoop ROOTA true (unmapState B n (j + 1)) (2 ^ 21 * B + 4096 * (j + 1)) r := by
  have hj512 : j < 512 := by omega
  simp only [unmapLoop]
  rw [walk_present _ _ _ false (unmap_present B n j hB hj512)]
  simp only [unmap_pathT0 B n j hB hj512, PX0_region B j hj512,
    unmapState_read_leaf B n j hj]
  rw [if_neg (leafVal_valid (dAddr j)), if_neg (leafVal_not_interior (dAddr j))]
  simp only [if_true, leafVal_pa _ (dAddr_mod j), kernel_free_page]
  rw [if_neg (show ¬(dAddr j % PGSIZE ≠ 0 ∨ dAddr j < (unmapState B n j).kend ∨
      PHYSTOP ≤ dAddr j) by
    simp only [unmapState, dAddr, chainPage, CB, PGSIZE, PHYSTOP, KERNBASE]
    split_ifs <;> omega)]
  simp only [unmap_flat B n j hj]
  rw [show 2 ^ 21 * B + 4096 * j + PGSIZE = 2 ^ 21 * B + 4096 * (j + 1) from by
    simp only [PGSIZE]
    ring]

theorem unmapLoop_from (B n : Nat) (hB : B < 2 ^ 17) (hn512 : n ≤ 513) :
    ∀ (r j : Nat), j + r = n - 2 →
      unmapLoop ROOTA true (unmapState B n j) (2 ^ 21 * B + 4096 * j) r =
        .ok (unmapState B n (n - 2)) := by
  intro r
  induction r with
  | zero =>
      intro j hjr
      have : j = n - 2 := by omega
      subst this
      rfl
  | succ r ih =>
      intro j hjr
      rw [unmapLoop_step B n j r hB hn512 (by omega)]
      exact ih (j + 1) (by omega)

theorem uvmallocLoop_fail (B n newsz g : Nat) (hB : B < 2 ^ 17) (hn3 : 3 ≤ n)
    (hn512 : n ≤ 513) :
    uvmallocLoop ROOTA (2 ^ 21 * B) newsz PTE_W (allocState B n (n - 2))
        (2 ^ 21 * B + 4096 * (n - 2)) (g + 1) =
      .ok (0, unmapState B n (n - 2)) := by
  have hh : (allocState B n (n - 2)).head = 0 := by
    simp only [allocState]
    rw [if_neg (by omega)]
  have hk : kalloc (allocState B n (n - 2)) = (none, allocState B n (n - 2)) := by
    unfold kalloc
    rw [if_pos hh]
  have e1 : PGROUNDUP (2 ^ 21 * B) = 2 ^ 21 * B := by
    simp only [PGROUNDUP, PGSIZE]
    omega
  have e2 : PGROUNDUP (2 ^ 21 * B + 4096 * (n - 2)) = 2 ^ 21 * B + 4096 * (n - 2) := by
    simp only [PGROUNDUP, PGSIZE]
    omega
  have hrun : unmapLoop ROOTA true (unmapState B n 0) (2 ^ 21 * B) (n - 2) =
      .ok (unmapState B n (n - 2)) := by
    have h := unmapLoop_from B n hB hn512 (n - 2) 0 (by omega)
    simpa using h
  simp only [uvmallocLoop, hk, uvmdealloc, uvmunmap]
  rw [if_neg (show ¬(2 ^ 21 * B ≥ 2 ^ 21 * B + 4096 * (n - 2)) by omega)]
  rw [e1, e2]
  rw [if_pos (show 2 ^ 21 * B < 2 ^ 21 * B + 4096 * (n - 2) by omega)]
  rw [show (2 ^ 21 * B + 4096 * (n - 2) - 2 ^ 21 * B) / PGSIZE = n - 2 from by
    simp only [PGSIZE]
    omega]
  rw [if_neg (not_not_intro (show 2 ^ 21 * B % PGSIZE = 0 by
    simp only [PGSIZE]
    omega))]
  rw [alloc_unmap_junction B n hn3, hrun]

theorem growproc_fail_eq (B n sz ngrow : Nat) (hB : B < 2 ^ 17)
    (hsz : PGROUNDUP sz = 2 ^ 21 * B) (hn3 : 3 ≤ n) (hn512 : n ≤ 513)
    (hfail : 2 ^ 21 * B + 4096 * (n - 2) < sz + ngrow) :
    growproc (chainMachine n) ROOTA sz ngrow = .ok (-1, sz, unmapState B n (n - 2)) := by
  obtain ⟨g, hg⟩ : ∃ g, (sz + ngrow - 2 ^ 21 * B + PGSIZE - 1) / PGSIZE =
      1 + ((n - 3) + (g + 1)) := by
    refine ⟨(sz + ngrow - 2 ^ 21 * B + PGSIZE - 1) / PGSIZE - (n - 1), ?_⟩
    simp only [PGSIZE]
    omega
  simp only [growproc, uvmalloc]
  rw [if_neg (show ¬(sz + ngrow < sz) by omega)]
  rw [hsz, hg, Nat.add_comm 1 ((n - 3) + (g + 1))]
  rw [uvmallocLoop_iter0 B n (2 ^ 21 * B) (sz + ngrow) ((n - 3) + (g + 1)) hB hn3]
  rw [show (2 : Nat) ^ 21 * B + PGSIZE = 2 ^ 21 * B + 4096 * 1 from by
    simp only [PGSIZE]]
  rw [Nat.add_comm (n - 3) (g + 1)]
  rw [uvmallocLoop_from B n (2 ^ 21 * B) (sz + ngrow) hB hn512 (n - 3) 1 (g + 1)
    (le_refl 1) (by omega)]
  rw [uvmallocLoop_fail B n (sz + ngrow) g hB hn3 hn512]
  rfl

theorem unmapState_final_head (B n : Nat) (hn3 : 3 ≤ n) :
    (unmapState B n (n - 2)).head = dAddr (n - 3) := by
  simp only [unmapState]
  rw [if_neg (by omega), show n - 2 - 1 = n - 3 from by omega]

theorem unmapState_read_null (B n j : Nat) :
    (unmapState B n j).pages 0 0 = 0 := by
  simp only [unmapState, chainMachine]
  split_ifs <;> first | rfl | (simp only [chainPage, CB, ROOTA] at *; omega)

theorem unmapState_read_cp0 (B n j : Nat) (hj1 : 1 ≤ j) :
    (unmapState B n j).pages (chainPage 0) 0 = 0 := by
  simp only [unmapState, chainMachine]
  split_ifs <;> first | rfl | (simp only [chainPage, CB, ROOTA] at *; omega)

theorem unmapState_read_freed (B n q : Nat) (hq1 : 1 ≤ q) (hq : q ≤ n - 3) :
    (unmapState B n (n - 2)).pages (dAddr q) 0 = dAddr (q - 1) := by
  have hd : dAddr q = chainPage (2 + q) := by
    simp only [dAddr]
    rw [if_neg (by omega)]
  rw [hd]
  simp only [unmapState]
  rw [if_neg (show ¬(chainPage (2 + q) = chainPage 0) by
      simp only [chainPage, CB]; omega),
    if_neg (show ¬(chainPage (2 + q) = chainPage 1) by
      simp only [chainPage, CB]; omega),
    if_neg (show ¬(chainPage (2 + q) = chainPage 2) by
      simp only [chainPage, CB]; omega),
    if_pos (show chainPage 3 ≤ chainPage (2 + q) ∧
        chainPage (2 + q) < chainPage (2 + (n - 2)) ∧
        (chainPage (2 + q) - CB) % 4096 = 0 by
      simp only [chainPage, CB]; omega)]
  simp only [dAddr, chainPage, CB]
  split_ifs <;> omega

theorem nthFree_unmap_inv (B n : Nat) (hn3 : 3 ≤ n) :
    ∀ t, nthFree (unmapState B n (n - 2)) t = 0 ∨
      ∃ q, q ≤ n - 3 ∧ nthFree (unmapState B n (n - 2)) t = dAddr q := by
  intro t
  induction t with
  | zero =>
      right
      exact ⟨n - 3, le_refl _, unmapState_final_head B n hn3⟩
  | succ t ih =>
      rcases ih with h0 | ⟨q, hq, he⟩
      · left
        show (unmapState B n (n - 2)).pages (nthFree (unmapState B n (n - 2)) t) 0 = 0
        rw [h0]
        exact unmapState_read_null B n (n - 2)
      · rcases Nat.eq_zero_or_pos q with hq0 | hq1
        · left
          subst hq0
          show (unmapState B n (n - 2)).pages (nthFree (unmapState B n (n - 2)) t) 0 = 0
          rw [he, show dAddr 0 = chainPage 0 from by simp [dAddr]]
          exact unmapState_read_cp0 B n (n - 2) (by omega)
        · right
          refine ⟨q - 1, by omega, ?_⟩
          show (unmapState B n (n - 2)).pages (nthFree (unmapState B n (n - 2)) t) 0 =
            dAddr (q - 1)
          rw [he]
          exact unmapState_read_freed B n q hq1 hq

theorem nthFree_unmap_ne (B n : Nat) (hn3 : 3 ≤ n) :
    ∀ t, nthFree (unmapState B n (n - 2)) t ≠ chainPage 1 ∧
      nthFree (unmapState B n (n - 2)) t ≠ chainPage 2 := by
  intro t
  rcases nthFree_unmap_inv B n hn3 t with h0 | ⟨q, _, he⟩
  · rw [h0]
    constructor <;> (simp only [chainPage, CB]; omega)
  · rw [he]
    constructor <;> (simp only [dAddr, chainPage, CB]; split_ifs <;> omega)

/-- C9 (amended): when `growproc`'s positive-growth path fails partway
(`kalloc` runs out after mapping `n - 2` pages of a 2 MiB-aligned region),
the call returns -1 with the recorded size unchanged, and every DATA page
allocated by the call is returned to the allocator: the resulting free list
is exactly the freed data pages (ending in the null link).  But the claim's
"every page ... allocated by that call" is false for the two page-table
pages the walk allocated: they are never on the resulting free list, and
their interior entries remain installed in the root and level-1 tables. -/
theorem growproc_rollback_leaks_tables (B n sz ngrow : Nat)
    (hB : B < 2 ^ 17) (hsz : PGROUNDUP sz = 2 ^ 21 * B) (hn3 : 3 ≤ n) (hn512 : n ≤ 513)
    (hfail : 2 ^ 21 * B + 4096 * (n - 2) < sz + ngrow) :
    growproc (chainMachine n) ROOTA sz ngrow = .ok (-1, sz, unmapState B n (n - 2)) ∧
    (unmapState B n (n - 2)).head = dAddr (n - 3) ∧
    (∀ t, nthFree (unmapState B n (n - 2)) t = 0 ∨
      ∃ q, q ≤ n - 3 ∧ nthFree (unmapState B n (n - 2)) t = dAddr q) ∧
    (∀ t, nthFree (unmapState B n (n - 2)) t ≠ chainPage 1 ∧
      nthFree (unmapState B n (n - 2)) t ≠ chainPage 2) ∧
    (unmapState B n (n - 2)).pages ROOTA (B / 512) = interiorVal (chainPage 1) ∧
    (unmapState B n (n - 2)).pages (chainPage 1) (B % 512) = interiorVal (chainPage 2) :=
  ⟨growproc_fail_eq B n sz ngrow hB hsz hn3 hn512 hfail,
   unmapState_final_head B n hn3,
   nthFree_unmap_inv B n hn3,
   nthFree_unmap_ne B n hn3,
   unmapState_read_root B n (n - 2),
   unmapState_read_L1 B n (n - 2)⟩

/-- Concrete run refuting the unqualified rollback claim: growing from 0 by
4097 bytes over a 3-page free list maps one data page (consuming all three
free pages: one data page and two page-table pages) and then fails; the
rollback returns only the data page `chainPage 0` to the free list (head =
`chainPage 0`, link = null), while `chainPage 1` and `chainPage 2` -- both
allocated by this call -- stay out of the free list, still referenced by
the retained page-table entries. -/
theorem growproc_rollback_leak_example :
    ((growproc (chainMachine 3) ROOTA 0 4097).toOption.map
        (fun r => (r.1, r.2.1, r.2.2.head, r.2.2.pages (chainPage 0) 0,
          r.2.2.pages ROOTA 0, r.2.2.pages (chainPage 1) 0))) =
      some (-1, 0, chainPage 0, 0, interiorVal (chainPage 1), interiorVal (chainPage 2)) ∧
    chainPage 1 ≠ chainPage 0 ∧ chainPage 1 ≠ 0 ∧ chainPage 2 ≠ chainPage 0 ∧
    chainPage 2 ≠ 0 := by
  decide

theorem growproc_rollback_leaks_tables_witness :
    growproc (chainMachine 3) ROOTA 0 4097 = .ok (-1, 0, unmapState 0 3 (3 - 2)) ∧
    (unmapState 0 3 (3 - 2)).head = dAddr (3 - 3) ∧
    (∀ t, nthFree (unmapState 0 3 (3 - 2)) t = 0 ∨
      ∃ q, q ≤ 3 - 3 ∧ nthFree (unmapState 0 3 (3 - 2)) t = dAddr q) ∧
    (∀ t, nthFree (unmapState 0 3 (3 - 2)) t ≠ chainPage 1 ∧
      nthFree (unmapState 0 3 (3 - 2)) t ≠ chainPage 2) ∧
    (unmapState 0 3 (3 - 2)).pages ROOTA (0 / 512) = interiorVal (chainPage 1) ∧
    (unmapState 0 3 (3 - 2)).pages (chainPage 1) (0 % 512) = interiorVal (chainPage 2) :=
  growproc_rollback_leaks_tables 0 3 0 4097 (by decide) (by decide) (by decide)
    (by decide) (by decide)
